import Mathlib

/-!
Verification of the gaia-archtree evolution core against its specification.

The definitions below are shallow embeddings of the JavaScript source:
* `MultiObjectiveOptimizer` (NSGA-II sorting, crowding distance, selection,
  crossover, evaluation) from the unnamed module containing the class,
* `WorktreeManager` and `MutationBrancher` state machines from
  `|_trunk/heartwood/`.

JavaScript numbers are modelled as exact rationals (`ℚ`); the crowding
distance, which the code can set to `Infinity`, lives in `WithTop ℚ`.
Asynchronous git side effects are modelled as an explicit list of emitted
`GitOp`s, and fallible methods return `Except String`.
-/

namespace Gaia

/-! ### Data model for the multi-objective optimizer -/

/-- A registered objective: `id` and direction (`maximize`).  The sorting and
crowding code only reads these two fields of the objective config. -/
structure Objective where
  id : String
  maximize : Bool
deriving DecidableEq, Repr

/-- An evaluated solution: its id, its objective-value map
(`evaluation.objectives`) and its crowding distance
(`evaluation.crowdingDistance`, which the code can set to `Infinity`). -/
structure Solution where
  id : String
  objectives : List (String × ℚ)
  crowdingDistance : WithTop ℚ
deriving DecidableEq, Repr

/-- `solution.evaluation.objectives[objectiveId]` (0 when absent). -/
def objVal (s : Solution) (oid : String) : ℚ :=
  ((s.objectives.find? (fun p => p.1 == oid)).map Prod.snd).getD 0

/-- Loop body of `MultiObjectiveOptimizer.dominates`: walk the registered
objectives, returning `false` as soon as `solution1` is strictly worse
somewhere, and tracking the `atLeastOneObjectiveBetter` flag. -/
def dominatesAux (s1 s2 : Solution) : Bool → List Objective → Bool
  | flag, [] => flag
  | flag, o :: rest =>
    let v1 := objVal s1 o.id
    let v2 := objVal s2 o.id
    if o.maximize then
      if v1 < v2 then false
      else dominatesAux s1 s2 (flag || decide (v2 < v1)) rest
    else
      if v2 < v1 then false
      else dominatesAux s1 s2 (flag || decide (v1 < v2)) rest

/-- `MultiObjectiveOptimizer.dominates(solution1, solution2)`. -/
def dominates (objs : List Objective) (s1 s2 : Solution) : Bool :=
  dominatesAux s1 s2 false objs

/-- "`s1` is no worse than `s2`" on objective `o`, respecting its direction. -/
def objLe (o : Objective) (s1 s2 : Solution) : Prop :=
  if o.maximize then objVal s2 o.id ≤ objVal s1 o.id else objVal s1 o.id ≤ objVal s2 o.id

/-- "`s1` is strictly better than `s2`" on objective `o`. -/
def objLt (o : Objective) (s1 s2 : Solution) : Prop :=
  if o.maximize then objVal s2 o.id < objVal s1 o.id else objVal s1 o.id < objVal s2 o.id

instance (o : Objective) (s1 s2 : Solution) : Decidable (objLe o s1 s2) := by
  unfold objLe; infer_instance

instance (o : Objective) (s1 s2 : Solution) : Decidable (objLt o s1 s2) := by
  unfold objLt; infer_instance

theorem objLt_objLe_false (o : Objective) (a b : Solution)
    (h1 : objLt o a b) (h2 : objLe o b a) : False := by
  rw [objLt] at h1
  rw [objLe] at h2
  cases hmax : o.maximize <;> simp only [hmax] at h1 h2 <;> simp at h1 h2 <;> linarith

theorem objLe_of_not_objLt (o : Objective) (a b : Solution)
    (h : ¬ objLt o a b) : objLe o b a := by
  rw [objLt] at h
  rw [objLe]
  cases hmax : o.maximize <;> simp only [hmax] at h ⊢ <;> simp at h ⊢ <;> linarith

theorem objLe_trans (o : Objective) (a b c : Solution)
    (h1 : objLe o a b) (h2 : objLe o b c) : objLe o a c := by
  rw [objLe] at h1 h2 ⊢
  cases hmax : o.maximize <;> simp only [hmax] at h1 h2 ⊢ <;> simp at h1 h2 ⊢ <;> linarith

theorem objLt_of_objLt_objLe (o : Objective) (a b c : Solution)
    (h1 : objLt o a b) (h2 : objLe o b c) : objLt o a c := by
  rw [objLt] at h1 ⊢
  rw [objLe] at h2
  cases hmax : o.maximize <;> simp only [hmax] at h1 h2 ⊢ <;> simp at h1 h2 ⊢ <;> linarith

theorem dominatesAux_cons (s1 s2 : Solution) (flag : Bool) (o : Objective)
    (rest : List Objective) :
    dominatesAux s1 s2 flag (o :: rest) =
      if objLt o s2 s1 then false
      else dominatesAux s1 s2 (flag || decide (objLt o s1 s2)) rest := by
  cases hmax : o.maximize <;>
    simp only [dominatesAux, hmax, objLt, if_true, if_false, Bool.false_eq_true]

theorem dominatesAux_iff (s1 s2 : Solution) :
    ∀ (objs : List Objective) (flag : Bool),
      dominatesAux s1 s2 flag objs = true ↔
        ((∀ o ∈ objs, objLe o s1 s2) ∧ (flag = true ∨ ∃ o ∈ objs, objLt o s1 s2)) := by
  intro objs
  induction objs with
  | nil =>
    intro flag
    simp [dominatesAux]
  | cons o rest ih =>
    intro flag
    rw [dominatesAux_cons]
    by_cases hw : objLt o s2 s1
    · rw [if_pos hw]
      constructor
      · intro h; exact absurd h Bool.false_ne_true
      · rintro ⟨hle, -⟩
        exact (objLt_objLe_false o s2 s1 hw (hle o (List.mem_cons_self o rest))).elim
    · rw [if_neg hw, ih]
      have hle0 : objLe o s1 s2 := objLe_of_not_objLt o s2 s1 hw
      simp only [List.mem_cons, Bool.or_eq_true, decide_eq_true_eq]
      constructor
      · rintro ⟨hrest, hflag⟩
        refine ⟨?_, ?_⟩
        · rintro o' (rfl | h)
          · exact hle0
          · exact hrest o' h
        · rcases hflag with (hf | hlt) | ⟨o', ho', hlt⟩
          · exact Or.inl hf
          · exact Or.inr ⟨o, Or.inl rfl, hlt⟩
          · exact Or.inr ⟨o', Or.inr ho', hlt⟩
      · rintro ⟨hall, hflag⟩
        refine ⟨fun o' h => hall o' (Or.inr h), ?_⟩
        rcases hflag with hf | ⟨o', ho', hlt⟩
        · exact Or.inl (Or.inl hf)
        · rcases ho' with rfl | h
          · exact Or.inl (Or.inr hlt)
          · exact Or.inr ⟨o', h, hlt⟩

theorem dominates_iff (objs : List Objective) (s1 s2 : Solution) :
    dominates objs s1 s2 = true ↔
      ((∀ o ∈ objs, objLe o s1 s2) ∧ ∃ o ∈ objs, objLt o s1 s2) := by
  rw [dominates, dominatesAux_iff]
  simp

theorem dominates_irrefl (objs : List Objective) (s : Solution) :
    dominates objs s s = false := by
  rw [Bool.eq_false_iff]
  intro h
  rcases (dominates_iff objs s s).mp h with ⟨-, o, -, hlt⟩
  rw [objLt] at hlt
  split at hlt <;> exact lt_irrefl _ hlt

theorem dominates_asymm (objs : List Objective) (s1 s2 : Solution)
    (h : dominates objs s1 s2 = true) : dominates objs s2 s1 = false := by
  rw [Bool.eq_false_iff]
  intro h'
  rcases (dominates_iff objs s1 s2).mp h with ⟨-, o, ho, hlt12⟩
  rcases (dominates_iff objs s2 s1).mp h' with ⟨hle21, -⟩
  exact objLt_objLe_false o s1 s2 hlt12 (hle21 o ho)

theorem dominates_trans (objs : List Objective) (a b c : Solution)
    (hab : dominates objs a b = true) (hbc : dominates objs b c = true) :
    dominates objs a c = true := by
  rcases (dominates_iff objs a b).mp hab with ⟨hle1, o, ho, hlt1⟩
  rcases (dominates_iff objs b c).mp hbc with ⟨hle2, -⟩
  refine (dominates_iff objs a c).mpr ⟨?_, o, ho, ?_⟩
  · exact fun o' ho' => objLe_trans o' a b c (hle1 o' ho') (hle2 o' ho')
  · exact objLt_of_objLt_objLe o a b c hlt1 (hle2 o ho)

/-! ### `MultiObjectiveOptimizer.fastNonDominatedSort`

The initial pass of the code computes, for every solution `p` of the
population, `p.evaluation.dominationCount` (the number of other members
dominating `p`) and `p.evaluation.dominatedSolutions` (the ids of the members
`p` dominates), and puts the zero-count members into front 0.  The loop then
peels subsequent fronts by decrementing the counts of each processed
solution's dominated set.  Counts are modelled as an association list from
solution id to `Int`. -/

/-- "`r` dominates `q` and is a different member", exactly the guard
`solution.id === otherSolution.id ? skip : dominates(...)` of the code. -/
def domBeats (objs : List Objective) (r q : Solution) : Bool :=
  (r.id != q.id) && dominates objs r q

/-- `p.evaluation.dominationCount` as computed by the initial pass. -/
def initCount (objs : List Objective) (pop : List Solution) (p : Solution) : Nat :=
  (pop.filter (fun q => domBeats objs q p)).length

/-- Number of dominators of `q` inside the list `L` (a sub-collection of the
population); `initCount objs pop q = dIn objs q pop`. -/
def dIn (objs : List Objective) (q : Solution) (L : List Solution) : Nat :=
  (L.filter (fun r => domBeats objs r q)).length

/-- `p.evaluation.dominatedSolutions`: ids of the members `p` dominates, in
population order (JS `Set` iterates in insertion order). -/
def dominatedIds (objs : List Objective) (pop : List Solution) (p : Solution) : List String :=
  (pop.filter (fun q => domBeats objs p q)).map Solution.id

/-- Front 0: the members pushed by `if (dominationCount === 0)`. -/
def front0 (objs : List Objective) (pop : List Solution) : List Solution :=
  pop.filter (fun p => initCount objs pop p == 0)

/-- The initial association list of domination counts. -/
def initCounts (objs : List Objective) (pop : List Solution) : List (String × Int) :=
  pop.map (fun p => (p.id, (initCount objs pop p : Int)))

/-- `dominatedSolution.evaluation.dominationCount--` on the count table. -/
def decrCount (cs : List (String × Int)) (qid : String) : List (String × Int) :=
  cs.map (fun e => if e.1 == qid then (e.1, e.2 - 1) else e)

/-- Read a count from the table (first entry with the id; 0 when absent). -/
def getCount (cs : List (String × Int)) (qid : String) : Int :=
  ((cs.find? (fun e => e.1 == qid)).map Prod.snd).getD 0

/-- Body of the inner loop over `solution.evaluation.dominatedSolutions`:
`population.find`, decrement, and push onto the next front when the count
reaches 0. -/
def procId (pop : List Solution) (acc : List (String × Int) × List Solution)
    (qid : String) : List (String × Int) × List Solution :=
  match pop.find? (fun s => s.id == qid) with
  | none => acc
  | some q =>
    let cs := decrCount acc.1 qid
    if getCount cs qid == 0 then (cs, acc.2 ++ [q]) else (cs, acc.2)

/-- One round of the `while` loop: process every solution of the current
front, producing the updated count table and the next front. -/
def processFront (objs : List Objective) (pop : List Solution) (front : List Solution)
    (cs : List (String × Int)) : List (String × Int) × List Solution :=
  front.foldl (fun acc p => (dominatedIds objs pop p).foldl (procId pop) acc) (cs, [])

/-- The front-peeling `while` loop (fuelled; `pop.length + 1` is enough). -/
def buildFronts (objs : List Objective) (pop : List Solution) :
    Nat → List Solution → List (String × Int) → List (List Solution)
  | 0, _, _ => []
  | fuel + 1, current, cs =>
    if current.isEmpty then []
    else
      let r := processFront objs pop current cs
      if r.2.isEmpty then []
      else r.2 :: buildFronts objs pop fuel r.2 r.1

/-- `MultiObjectiveOptimizer.fastNonDominatedSort(population)`. -/
def fastNonDominatedSort (objs : List Objective) (pop : List Solution) :
    List (List Solution) :=
  let f0 := front0 objs pop
  f0 :: buildFronts objs pop (pop.length + 1) f0 (initCounts objs pop)

/-! ### Correctness of the non-dominated sort -/

/-- Distinctness of solution ids, the well-formedness assumption of the claim
(the code keys `dominatedSolutions` and `population.find` by id). -/
def idsNodup (l : List Solution) : Prop := (l.map Solution.id).Nodup

instance (l : List Solution) : Decidable (idsNodup l) := by
  unfold idsNodup; infer_instance

/-- Canonical form of the count table: one entry per population member. -/
def mkCounts (pop : List Solution) (c : Solution → Int) : List (String × Int) :=
  pop.map (fun p => (p.id, c p))

theorem mkCounts_congr {pop : List Solution} {c1 c2 : Solution → Int}
    (h : ∀ p ∈ pop, c1 p = c2 p) : mkCounts pop c1 = mkCounts pop c2 :=
  List.map_congr_left (fun p hp => by rw [h p hp])

theorem eq_of_id_eq {pop : List Solution} (hnd : idsNodup pop) {a b : Solution}
    (ha : a ∈ pop) (hb : b ∈ pop) (h : a.id = b.id) : a = b :=
  List.inj_on_of_nodup_map hnd ha hb h

theorem nodup_of_idsNodup {pop : List Solution} (hnd : idsNodup pop) : pop.Nodup :=
  List.Nodup.of_map _ hnd

theorem idsNodup_filter {pop : List Solution} (hnd : idsNodup pop) (P : Solution → Bool) :
    idsNodup (pop.filter P) :=
  List.Nodup.sublist ((@List.filter_sublist _ P pop).map Solution.id) hnd

theorem find?_id_of_mem {pop : List Solution} (hnd : idsNodup pop) {q : Solution}
    (hq : q ∈ pop) : pop.find? (fun s => s.id == q.id) = some q := by
  induction pop with
  | nil => cases hq
  | cons p rest ih =>
    have hnd' : idsNodup rest := (List.nodup_cons.mp hnd).2
    rcases List.mem_cons.mp hq with rfl | hq'
    · simp [List.find?]
    · have hpq : p.id ≠ q.id := by
        intro h
        exact (List.nodup_cons.mp hnd).1 (h ▸ List.mem_map_of_mem Solution.id hq')
      have : (p.id == q.id) = false := by simpa using hpq
      simp [List.find?, this, ih hnd' hq']

theorem getCount_mkCounts {pop : List Solution} (hnd : idsNodup pop) {q : Solution}
    (hq : q ∈ pop) (c : Solution → Int) : getCount (mkCounts pop c) q.id = c q := by
  unfold getCount mkCounts
  rw [List.find?_map]
  have hcomp : ((fun (e : String × Int) => e.1 == q.id) ∘ (fun p : Solution => (p.id, c p))) =
      (fun p : Solution => p.id == q.id) := rfl
  rw [hcomp, find?_id_of_mem hnd hq]
  rfl

theorem decrCount_mkCounts (pop : List Solution) (c : Solution → Int) (qid : String) :
    decrCount (mkCounts pop c) qid =
      mkCounts pop (fun p => if p.id = qid then c p - 1 else c p) := by
  unfold decrCount mkCounts
  rw [List.map_map]
  refine List.map_congr_left (fun p _ => ?_)
  by_cases h : p.id = qid <;> simp [h]

theorem procIds_spec {pop : List Solution} (hnd : idsNodup pop) :
    ∀ (L : List String) (c : Solution → Int) (nf0 : List Solution),
      ∃ t : List Solution,
        L.foldl (procId pop) (mkCounts pop c, nf0) =
          (mkCounts pop (fun p => c p - (L.count p.id : Int)), nf0 ++ t) ∧
        t.Nodup ∧
        ∀ q : Solution, q ∈ t ↔ (q ∈ pop ∧ 1 ≤ c q ∧ c q ≤ (L.count q.id : Int)) := by
  intro L
  induction L with
  | nil =>
    intro c nf0
    refine ⟨[], ?_, List.nodup_nil, ?_⟩
    · rw [List.foldl_nil, List.append_nil]
      have : mkCounts pop (fun p => c p - (List.count p.id [] : Int)) = mkCounts pop c := by
        apply mkCounts_congr; intro p _; simp
      rw [this]
    · intro q
      simp only [List.not_mem_nil, false_iff, List.count_nil, Nat.cast_zero]
      rintro ⟨-, h1, h2⟩
      omega
  | cons x L' ih =>
    intro c nf0
    rw [List.foldl_cons]
    cases hfind : pop.find? (fun s => s.id == x) with
    | none =>
      have hnot : ∀ s ∈ pop, s.id ≠ x := by
        intro s hs h
        have := List.find?_eq_none.mp hfind s hs
        simp [h] at this
      have hproc : procId pop (mkCounts pop c, nf0) x = (mkCounts pop c, nf0) := by
        unfold procId; rw [hfind]
      rw [hproc]
      obtain ⟨t, heq, hndt, hmem⟩ := ih c nf0
      have hcnt : ∀ p ∈ pop, ((x :: L').count p.id : Int) = (L'.count p.id : Int) := by
        intro p hp
        rw [List.count_cons]
        have : (x == p.id) = false := by simpa using fun h => hnot p hp h.symm
        simp [this]
      refine ⟨t, ?_, hndt, ?_⟩
      · rw [heq]
        have : mkCounts pop (fun p => c p - ((x :: L').count p.id : Int)) =
            mkCounts pop (fun p => c p - (L'.count p.id : Int)) := by
          apply mkCounts_congr; intro p hp; rw [hcnt p hp]
        rw [this]
      · intro q
        rw [hmem]
        constructor
        · rintro ⟨hq, h1, h2⟩
          exact ⟨hq, h1, by rw [hcnt q hq]; exact h2⟩
        · rintro ⟨hq, h1, h2⟩
          exact ⟨hq, h1, by rw [← hcnt q hq]; exact h2⟩
    | some q0 =>
      have hq0mem : q0 ∈ pop := List.mem_of_find?_eq_some hfind
      have hq0id : q0.id = x := by simpa using List.find?_some hfind
      have hdecr := decrCount_mkCounts pop c x
      have hgetc1 :
          getCount (mkCounts pop (fun p => if p.id = x then c p - 1 else c p)) x = c q0 - 1 := by
        have h := getCount_mkCounts hnd hq0mem (fun p => if p.id = x then c p - 1 else c p)
        rw [hq0id] at h
        rw [h]
        simp
      have hcnt_cons : ∀ q : Solution, q.id ≠ x →
          ((x :: L').count q.id : Int) = (L'.count q.id : Int) := by
        intro q hqx
        rw [List.count_cons]
        have : (x == q.id) = false := by simpa using fun h => hqx h.symm
        simp [this]
      have hcnt_x : ((x :: L').count q0.id : Int) = (L'.count q0.id : Int) + 1 := by
        rw [List.count_cons]
        have : (x == q0.id) = true := by simp [hq0id]
        simp [this]
      have hcc : mkCounts pop
            (fun p => (if p.id = x then c p - 1 else c p) - (L'.count p.id : Int)) =
          mkCounts pop (fun p => c p - ((x :: L').count p.id : Int)) := by
        apply mkCounts_congr
        intro p hp
        by_cases hpx : p.id = x
        · have hpq0 : p = q0 := eq_of_id_eq hnd hp hq0mem (hpx.trans hq0id.symm)
          subst hpq0
          rw [hcnt_x, if_pos hpx]
          omega
        · rw [hcnt_cons p hpx, if_neg hpx]
      by_cases hz : c q0 - 1 = 0
      · have hproc : procId pop (mkCounts pop c, nf0) x =
            (mkCounts pop (fun p => if p.id = x then c p - 1 else c p), nf0 ++ [q0]) := by
          unfold procId
          rw [hfind]
          simp only [hdecr, hgetc1, hz]
          simp
        rw [hproc]
        obtain ⟨t', heq, hndt, hmem⟩ := ih (fun p => if p.id = x then c p - 1 else c p) (nf0 ++ [q0])
        refine ⟨q0 :: t', ?_, ?_, ?_⟩
        · rw [heq, hcc, List.append_assoc]
          rfl
        · refine List.nodup_cons.mpr ⟨?_, hndt⟩
          intro hq0t
          obtain ⟨-, h1, -⟩ := (hmem q0).mp hq0t
          rw [if_pos hq0id] at h1
          omega
        · intro q
          rw [List.mem_cons, hmem]
          constructor
          · rintro (rfl | ⟨hq, h1, h2⟩)
            · refine ⟨hq0mem, by omega, ?_⟩
              rw [hcnt_x]
              omega
            · by_cases hqx : q.id = x
              · have hqq0 : q = q0 := eq_of_id_eq hnd hq hq0mem (hqx.trans hq0id.symm)
                subst hqq0
                rw [if_pos hqx] at h1
                omega
              · rw [if_neg hqx] at h1 h2
                exact ⟨hq, h1, by rw [hcnt_cons q hqx]; exact h2⟩
          · rintro ⟨hq, h1, h2⟩
            by_cases hqx : q.id = x
            · exact Or.inl (eq_of_id_eq hnd hq hq0mem (hqx.trans hq0id.symm))
            · refine Or.inr ⟨hq, ?_, ?_⟩
              · rw [if_neg hqx]; exact h1
              · rw [if_neg hqx]
                rw [hcnt_cons q hqx] at h2
                exact h2
      · have hproc : procId pop (mkCounts pop c, nf0) x =
            (mkCounts pop (fun p => if p.id = x then c p - 1 else c p), nf0) := by
          unfold procId
          rw [hfind]
          simp only [hdecr, hgetc1]
          simp [hz]
        rw [hproc]
        obtain ⟨t', heq, hndt, hmem⟩ := ih (fun p => if p.id = x then c p - 1 else c p) nf0
        refine ⟨t', ?_, hndt, ?_⟩
        · rw [heq, hcc]
        · intro q
          rw [hmem]
          constructor
          · rintro ⟨hq, h1, h2⟩
            by_cases hqx : q.id = x
            · have hqq0 : q = q0 := eq_of_id_eq hnd hq hq0mem (hqx.trans hq0id.symm)
              subst hqq0
              rw [if_pos hqx] at h1 h2
              rw [hcnt_x]
              exact ⟨hq, by omega, by omega⟩
            · rw [if_neg hqx] at h1 h2
              exact ⟨hq, h1, by rw [hcnt_cons q hqx]; exact h2⟩
          · rintro ⟨hq, h1, h2⟩
            by_cases hqx : q.id = x
            · have hqq0 : q = q0 := eq_of_id_eq hnd hq hq0mem (hqx.trans hq0id.symm)
              subst hqq0
              rw [hcnt_x] at h2
              rw [if_pos hqx]
              exact ⟨hq, by omega, by omega⟩
            · rw [if_neg hqx]
              rw [hcnt_cons q hqx] at h2
              exact ⟨hq, h1, h2⟩

theorem length_filter_id {pop : List Solution} (hnd : idsNodup pop) {q : Solution}
    (hq : q ∈ pop) (P : Solution → Bool) :
    (pop.filter (fun r => P r && (r.id == q.id))).length = if P q then 1 else 0 := by
  induction pop with
  | nil => cases hq
  | cons p rest ih =>
    have hnd' : idsNodup rest := (List.nodup_cons.mp hnd).2
    have hhead : p.id ∉ rest.map Solution.id := (List.nodup_cons.mp hnd).1
    rcases List.mem_cons.mp hq with rfl | hq'
    · have hzero : (rest.filter (fun r => P r && (r.id == q.id))).length = 0 := by
        rw [List.length_eq_zero, List.filter_eq_nil_iff]
        intro r hr
        have hne : r.id ≠ q.id := by
          intro h
          exact hhead (h ▸ List.mem_map_of_mem Solution.id hr)
        simp [hne]
      rw [List.filter_cons]
      by_cases hP : P q
      · simp [hP, hzero]
      · simp [hP, hzero]
    · have hne : p.id ≠ q.id := by
        intro h
        exact hhead (h ▸ List.mem_map_of_mem Solution.id hq')
      rw [List.filter_cons]
      have : (P p && (p.id == q.id)) = false := by simp [hne]
      simp only [this, Bool.false_eq_true, if_false]
      exact ih hnd' hq'

theorem count_dominatedIds (objs : List Objective) {pop : List Solution}
    (hnd : idsNodup pop) {q : Solution} (hq : q ∈ pop) (p : Solution) :
    (dominatedIds objs pop p).count q.id = if domBeats objs p q then 1 else 0 := by
  unfold dominatedIds
  induction pop with
  | nil => cases hq
  | cons r rest ih =>
    have hnd' : idsNodup rest := (List.nodup_cons.mp hnd).2
    have hhead : r.id ∉ rest.map Solution.id := (List.nodup_cons.mp hnd).1
    rcases List.mem_cons.mp hq with rfl | hq'
    · have hzero : ((rest.filter (fun s => domBeats objs p s)).map Solution.id).count q.id = 0 := by
        rw [List.count_eq_zero]
        intro hmem
        obtain ⟨s, hs, hsid⟩ := List.mem_map.mp hmem
        exact hhead (hsid ▸ List.mem_map_of_mem Solution.id (List.mem_of_mem_filter hs))
      rw [List.filter_cons]
      by_cases hb : domBeats objs p q
      · simp only [hb, if_true, List.map_cons, List.count_cons, hzero]
        simp
      · simp only [hb, Bool.false_eq_true, if_false, hzero]
    · have hne : r.id ≠ q.id := fun h => hhead (h ▸ List.mem_map_of_mem Solution.id hq')
      rw [List.filter_cons]
      by_cases hb : domBeats objs p r
      · simp only [hb, if_true, List.map_cons, List.count_cons]
        have hbe : (r.id == q.id) = false := by simpa using hne
        simp only [hbe, Bool.false_eq_true, if_false, add_zero]
        exact ih hnd' hq'
      · simp only [hb, Bool.false_eq_true, if_false]
        exact ih hnd' hq'

theorem sum_ite_eq_length_filter (F : List Solution) (P : Solution → Bool) :
    (F.map (fun p => if P p then 1 else 0)).sum = (F.filter P).length := by
  induction F with
  | nil => rfl
  | cons p rest ih =>
    rw [List.map_cons, List.sum_cons, List.filter_cons]
    by_cases h : P p <;> simp [h, ih, Nat.add_comm]

theorem count_flatten_dominatedIds (objs : List Objective) {pop : List Solution}
    (hnd : idsNodup pop) {q : Solution} (hq : q ∈ pop) (F : List Solution) :
    ((F.map (dominatedIds objs pop)).flatten).count q.id = dIn objs q F := by
  rw [List.count_flatten, List.map_map]
  have hmc : F.map (List.count q.id ∘ dominatedIds objs pop) =
      F.map (fun p => if domBeats objs p q then 1 else 0) :=
    List.map_congr_left (fun p _ => count_dominatedIds objs hnd hq p)
  rw [hmc, sum_ite_eq_length_filter]
  rfl

theorem foldl_nested (objs : List Objective) (pop : List Solution) :
    ∀ (F : List Solution) (st : List (String × Int) × List Solution),
      F.foldl (fun acc p => (dominatedIds objs pop p).foldl (procId pop) acc) st =
        ((F.map (dominatedIds objs pop)).flatten).foldl (procId pop) st := by
  intro F
  induction F with
  | nil => intro st; rfl
  | cons p rest ih =>
    intro st
    rw [List.foldl_cons, List.map_cons, List.flatten_cons, List.foldl_append, ih]

theorem processFront_spec (objs : List Objective) {pop : List Solution}
    (hnd : idsNodup pop) (F : List Solution) (c : Solution → Int) :
    ∃ t, processFront objs pop F (mkCounts pop c) =
        (mkCounts pop (fun p => c p - (dIn objs p F : Int)), t) ∧
      t.Nodup ∧
      ∀ q : Solution, q ∈ t ↔ (q ∈ pop ∧ 1 ≤ c q ∧ c q ≤ (dIn objs q F : Int)) := by
  unfold processFront
  rw [foldl_nested]
  obtain ⟨t, heq, hndt, hmem⟩ := procIds_spec hnd ((F.map (dominatedIds objs pop)).flatten) c []
  refine ⟨t, ?_, hndt, ?_⟩
  · rw [heq, List.nil_append]
    congr 1
    apply mkCounts_congr
    intro p hp
    rw [count_flatten_dominatedIds objs hnd hp F]
  · intro q
    rw [hmem]
    constructor
    · rintro ⟨hq, h1, h2⟩
      rw [count_flatten_dominatedIds objs hnd hq F] at h2
      exact ⟨hq, h1, h2⟩
    · rintro ⟨hq, h1, h2⟩
      refine ⟨hq, h1, ?_⟩
      rw [count_flatten_dominatedIds objs hnd hq F]
      exact h2

/-! ### Domination-count arithmetic over emitted fronts -/

theorem dIn_append (objs : List Objective) (q : Solution) (A B : List Solution) :
    dIn objs q (A ++ B) = dIn objs q A + dIn objs q B := by
  unfold dIn
  rw [List.filter_append, List.length_append]

theorem initCount_eq_dIn (objs : List Objective) (pop : List Solution) (q : Solution) :
    initCount objs pop q = dIn objs q pop := rfl

theorem nodup_subset_length_le {α : Type} [DecidableEq α] {l1 l2 : List α}
    (h1 : l1.Nodup) (hsub : l1 ⊆ l2) : l1.length ≤ l2.length := by
  calc l1.length = l1.toFinset.card := (List.toFinset_card_of_nodup h1).symm
    _ ≤ l2.toFinset.card :=
        Finset.card_le_card (fun x hx => List.mem_toFinset.mpr (hsub (List.mem_toFinset.mp hx)))
    _ ≤ l2.length := l2.toFinset_card_le

theorem mem_of_nodup_subset_length_ge {α : Type} [DecidableEq α] {l1 l2 : List α}
    (h1 : l1.Nodup) (h2 : l2.Nodup) (hsub : l1 ⊆ l2) (hlen : l2.length ≤ l1.length) :
    ∀ x ∈ l2, x ∈ l1 := by
  have hs : l1.toFinset ⊆ l2.toFinset :=
    fun x hx => List.mem_toFinset.mpr (hsub (List.mem_toFinset.mp hx))
  have hc : l2.toFinset.card ≤ l1.toFinset.card := by
    rw [List.toFinset_card_of_nodup h1, List.toFinset_card_of_nodup h2]
    exact hlen
  have heq := Finset.eq_of_subset_of_card_le hs hc
  intro x hx
  exact List.mem_toFinset.mp (heq ▸ List.mem_toFinset.mpr hx)

theorem dIn_le_initCount (objs : List Objective) {pop D : List Solution}
    (hnd : idsNodup pop) (hD : D.Nodup) (hsub : D ⊆ pop) (q : Solution) :
    dIn objs q D ≤ initCount objs pop q := by
  apply nodup_subset_length_le (hD.filter _)
  intro r hr
  rw [List.mem_filter] at hr ⊢
  exact ⟨hsub hr.1, hr.2⟩

theorem dIn_eq_initCount_iff (objs : List Objective) {pop D : List Solution}
    (hnd : idsNodup pop) (hD : D.Nodup) (hsub : D ⊆ pop) (q : Solution) :
    dIn objs q D = initCount objs pop q ↔
      ∀ r ∈ pop, domBeats objs r q = true → r ∈ D := by
  constructor
  · intro heq r hr hbeat
    have hndD : (D.filter (fun r => domBeats objs r q)).Nodup := hD.filter _
    have hndP : (pop.filter (fun r => domBeats objs r q)).Nodup :=
      (nodup_of_idsNodup hnd).filter _
    have hsubf : (D.filter (fun r => domBeats objs r q)) ⊆
        (pop.filter (fun r => domBeats objs r q)) := by
      intro x hx
      rw [List.mem_filter] at hx ⊢
      exact ⟨hsub hx.1, hx.2⟩
    have hmem := mem_of_nodup_subset_length_ge hndD hndP hsubf (le_of_eq heq.symm)
    have hrf : r ∈ pop.filter (fun r => domBeats objs r q) :=
      List.mem_filter.mpr ⟨hr, hbeat⟩
    exact (List.mem_filter.mp (hmem r hrf)).1
  · intro hall
    apply le_antisymm (dIn_le_initCount objs hnd hD hsub q)
    apply nodup_subset_length_le ((nodup_of_idsNodup hnd).filter _)
    intro x hx
    rw [List.mem_filter] at hx ⊢
    exact ⟨hall x hx.1 hx.2, hx.2⟩

/-! ### Existence of non-dominated members and coverage -/

theorem domBeats_self (objs : List Objective) (s : Solution) :
    domBeats objs s s = false := by
  unfold domBeats
  simp

theorem exists_min_sol (objs : List Objective) :
    ∀ (R : List Solution), idsNodup R → R ≠ [] →
      ∃ m ∈ R, ∀ r ∈ R, domBeats objs r m = false := by
  intro R
  induction R with
  | nil => intro _ h; exact absurd rfl h
  | cons a rest ih =>
    intro hnd _
    have hnd' : idsNodup rest := (List.nodup_cons.mp hnd).2
    by_cases hrest : rest = []
    · subst hrest
      refine ⟨a, List.mem_cons_self a [], ?_⟩
      intro r hr
      rcases List.mem_cons.mp hr with rfl | h
      · exact domBeats_self objs r
      · cases h
    · obtain ⟨m, hm, hmin⟩ := ih hnd' hrest
      by_cases ha : domBeats objs a m = true
      · refine ⟨a, List.mem_cons_self a rest, ?_⟩
        intro r hr
        rcases List.mem_cons.mp hr with rfl | hr'
        · exact domBeats_self objs r
        · rw [Bool.eq_false_iff]
          intro hra
          unfold domBeats at hra ha
          rw [Bool.and_eq_true] at hra ha
          have hdom : dominates objs r m = true := dominates_trans objs r a m hra.2 ha.2
          have hid : r.id ≠ m.id := by
            intro h
            have hrm : r = m := eq_of_id_eq hnd' hr' hm h
            subst hrm
            have hasym := dominates_asymm objs r a hra.2
            rw [ha.2] at hasym
            cases hasym
          have hbm : domBeats objs r m = true := by
            unfold domBeats
            rw [Bool.and_eq_true]
            exact ⟨by simpa using hid, hdom⟩
          rw [hmin r hr'] at hbm
          cases hbm
      · refine ⟨m, List.mem_cons_of_mem a hm, ?_⟩
        intro r hr
        rcases List.mem_cons.mp hr with rfl | hr'
        · exact Bool.eq_false_iff.mpr ha
        · exact hmin r hr'

theorem coverage_of_closed (objs : List Objective) {pop : List Solution}
    (hnd : idsNodup pop) {E : List Solution} (hE : E.Nodup) (hsub : E ⊆ pop)
    (hclosed : ∀ q ∈ pop, dIn objs q E = initCount objs pop q → q ∈ E) :
    ∀ q ∈ pop, q ∈ E := by
  by_contra hcon
  push_neg at hcon
  obtain ⟨q0, hq0, hq0E⟩ := hcon
  have hRne : pop.filter (fun q => decide (q ∉ E)) ≠ [] := by
    intro h
    have hmem : q0 ∈ pop.filter (fun q => decide (q ∉ E)) :=
      List.mem_filter.mpr ⟨hq0, by simpa using hq0E⟩
    rw [h] at hmem
    cases hmem
  have hndR : idsNodup (pop.filter (fun q => decide (q ∉ E))) := idsNodup_filter hnd _
  obtain ⟨m, hmR, hmin⟩ := exists_min_sol objs _ hndR hRne
  have hmpop : m ∈ pop := (List.mem_filter.mp hmR).1
  have hmE : m ∉ E := by
    have := (List.mem_filter.mp hmR).2
    simpa using this
  have hdoms : ∀ r ∈ pop, domBeats objs r m = true → r ∈ E := by
    intro r hr hbeat
    by_contra hrE
    have hrR : r ∈ pop.filter (fun q => decide (q ∉ E)) :=
      List.mem_filter.mpr ⟨hr, by simpa using hrE⟩
    have hf := hmin r hrR
    rw [hbeat] at hf
    cases hf
  exact hmE (hclosed m hmpop ((dIn_eq_initCount_iff objs hnd hE hsub m).mpr hdoms))

/-! ### The front-peeling loop emits each member exactly once -/

theorem buildFronts_succ (objs : List Objective) (pop : List Solution) (fuel : Nat)
    (current : List Solution) (cs : List (String × Int)) :
    buildFronts objs pop (fuel + 1) current cs =
      if current.isEmpty then []
      else if (processFront objs pop current cs).2.isEmpty then []
      else (processFront objs pop current cs).2 ::
        buildFronts objs pop fuel (processFront objs pop current cs).2
          (processFront objs pop current cs).1 := rfl

theorem buildFronts_spec (objs : List Objective) {pop : List Solution}
    (hnd : idsNodup pop) :
    ∀ (fuel : Nat) (prev current : List Solution),
      (prev ++ current).Nodup →
      (prev ++ current) ⊆ pop →
      (∀ q ∈ pop, (q ∈ prev ++ current ↔ dIn objs q prev = initCount objs pop q)) →
      (∀ q ∈ prev ++ current, ∀ r ∈ pop, domBeats objs r q = true → r ∈ prev) →
      pop.length ≤ fuel + prev.length →
      ((prev ++ current ++ (buildFronts objs pop fuel current
          (mkCounts pop (fun p => (initCount objs pop p : Int) - (dIn objs p prev : Int)))).flatten).Nodup ∧
       ∀ q, (q ∈ prev ++ current ++ (buildFronts objs pop fuel current
          (mkCounts pop (fun p => (initCount objs pop p : Int) - (dIn objs p prev : Int)))).flatten ↔ q ∈ pop)) := by
  intro fuel
  induction fuel with
  | zero =>
    intro prev current hndpc hsub hchar hinv hfuel
    simp only [buildFronts, List.flatten_nil, List.append_nil]
    have hprevnd : prev.Nodup := (List.nodup_append.mp hndpc).1
    have hprevsub : prev ⊆ pop := fun x hx => hsub (List.mem_append_left _ hx)
    have hcov := mem_of_nodup_subset_length_ge hprevnd (nodup_of_idsNodup hnd)
      hprevsub (by omega)
    refine ⟨hndpc, fun q => ⟨fun hq => hsub hq, fun hq => List.mem_append_left _ (hcov q hq)⟩⟩
  | succ fuel ih =>
    intro prev current hndpc hsub hchar hinv hfuel
    have hprevnd : prev.Nodup := (List.nodup_append.mp hndpc).1
    have hprevsub : prev ⊆ pop := fun x hx => hsub (List.mem_append_left _ hx)
    by_cases hcur : current.isEmpty
    · have hc : current = [] := by
        cases current
        · rfl
        · cases hcur
      subst hc
      rw [List.append_nil] at hndpc hsub hchar hinv
      rw [buildFronts_succ]
      simp only [List.isEmpty_nil, if_true, List.flatten_nil, List.append_nil]
      refine ⟨hndpc, fun q => ⟨fun hq => hsub hq, fun hq => ?_⟩⟩
      have hclosed : ∀ q' ∈ pop, dIn objs q' prev = initCount objs pop q' → q' ∈ prev :=
        fun q' hq' => (hchar q' hq').mpr
      exact coverage_of_closed objs hnd hndpc hsub hclosed q hq
    · have hcne : current ≠ [] := by
        intro h
        rw [h] at hcur
        exact hcur rfl
      obtain ⟨t, heqPF, hndt, hmemt⟩ := processFront_spec objs hnd current
        (fun p => (initCount objs pop p : Int) - (dIn objs p prev : Int))
      -- facts needed in both branches
      have hpcsub_nodup : (prev ++ current).Nodup := hndpc
      have htsub : t ⊆ pop := fun x hx => ((hmemt x).mp hx).1
      have hmemt' : ∀ q, q ∈ t ↔ (q ∈ pop ∧ dIn objs q prev < initCount objs pop q ∧
          initCount objs pop q ≤ dIn objs q prev + dIn objs q current) := by
        intro q
        rw [hmemt]
        constructor
        · rintro ⟨hq, h1, h2⟩
          exact ⟨hq, by omega, by omega⟩
        · rintro ⟨hq, h1, h2⟩
          exact ⟨hq, by omega, by omega⟩
      have hpc_closed : ∀ q ∈ prev ++ current, dIn objs q prev = initCount objs pop q := by
        intro q hq
        exact (dIn_eq_initCount_iff objs hnd hprevnd hprevsub q).mpr (hinv q hq)
      have hdisj : ∀ q ∈ t, q ∉ prev ++ current := by
        intro q hq hq'
        obtain ⟨-, h1, -⟩ := (hmemt' q).mp hq
        rw [hpc_closed q hq'] at h1
        omega
      have hnext_closed : ∀ q ∈ (prev ++ current) ++ t,
          dIn objs q (prev ++ current) = initCount objs pop q := by
        intro q hq
        rcases List.mem_append.mp hq with hq' | hq'
        · have h0 := hpc_closed q hq'
          have hle := dIn_le_initCount objs hnd hndpc hsub q
          rw [dIn_append] at hle ⊢
          omega
        · obtain ⟨-, -, h2⟩ := (hmemt' q).mp hq'
          have hle := dIn_le_initCount objs hnd hndpc hsub q
          rw [dIn_append] at hle ⊢
          omega
      by_cases ht : t.isEmpty
      · have htnil : t = [] := by
          cases t
          · rfl
          · cases ht
        rw [buildFronts_succ, heqPF]
        simp only [hcur, Bool.false_eq_true, if_false, htnil, List.isEmpty_nil, if_true,
          List.flatten_nil, List.append_nil]
        refine ⟨hndpc, fun q => ⟨fun hq => hsub hq, fun hq => ?_⟩⟩
        have hclosed : ∀ q' ∈ pop, dIn objs q' (prev ++ current) = initCount objs pop q' →
            q' ∈ prev ++ current := by
          intro q' hq' hdq'
          by_cases hqp : dIn objs q' prev = initCount objs pop q'
          · exact (hchar q' hq').mpr hqp
          · have hle := dIn_le_initCount objs hnd hprevnd hprevsub q'
            have hq't : q' ∈ t := by
              rw [hmemt' q']
              rw [dIn_append] at hdq'
              exact ⟨hq', by omega, by omega⟩
            rw [htnil] at hq't
            cases hq't
        exact coverage_of_closed objs hnd hndpc hsub hclosed q hq
      · -- recursive case
        have hndpct : ((prev ++ current) ++ t).Nodup := by
          rw [List.nodup_append]
          refine ⟨hndpc, hndt, ?_⟩
          intro a ha hat
          exact hdisj a hat ha
        have hsubpct : ((prev ++ current) ++ t) ⊆ pop := by
          intro x hx
          rcases List.mem_append.mp hx with h | h
          · exact hsub h
          · exact htsub h
        have hchar' : ∀ q ∈ pop, (q ∈ (prev ++ current) ++ t ↔
            dIn objs q (prev ++ current) = initCount objs pop q) := by
          intro q hq
          constructor
          · exact fun h => hnext_closed q h
          · intro hdq
            by_cases hqp : dIn objs q prev = initCount objs pop q
            · exact List.mem_append_left _ ((hchar q hq).mpr hqp)
            · have hle := dIn_le_initCount objs hnd hprevnd hprevsub q
              refine List.mem_append_right _ ?_
              rw [hmemt' q]
              rw [dIn_append] at hdq
              exact ⟨hq, by omega, by omega⟩
        have hinv' : ∀ q ∈ (prev ++ current) ++ t, ∀ r ∈ pop,
            domBeats objs r q = true → r ∈ prev ++ current := by
          intro q hq r hr hbeat
          rcases List.mem_append.mp hq with hq' | hq'
          · exact List.mem_append_left _ (hinv q hq' r hr hbeat)
          · exact (dIn_eq_initCount_iff objs hnd hndpc hsub q).mp
              (hnext_closed q (List.mem_append_right _ hq')) r hr hbeat
        have hfuel' : pop.length ≤ fuel + (prev ++ current).length := by
          rw [List.length_append]
          have : 1 ≤ current.length := by
            cases current
            · exact absurd rfl hcne
            · simp
          omega
        have hcounts2 : mkCounts pop (fun p => ((initCount objs pop p : Int) -
              (dIn objs p prev : Int)) - (dIn objs p current : Int)) =
            mkCounts pop (fun p => (initCount objs pop p : Int) -
              (dIn objs p (prev ++ current) : Int)) := by
          apply mkCounts_congr
          intro p _
          rw [dIn_append]
          push_cast
          ring
        have hres := ih (prev ++ current) t hndpct hsubpct hchar' hinv' hfuel'
        rw [buildFronts_succ, heqPF]
        dsimp only
        simp only [hcur, Bool.false_eq_true, if_false, ht]
        rw [hcounts2]
        rw [List.flatten_cons]
        constructor
        · have h1 := hres.1
          simpa [List.append_assoc] using h1
        · intro q
          have h2 := hres.2 q
          simpa [List.append_assoc] using h2

theorem front0_no_dominators (objs : List Objective) (pop : List Solution) :
    front0 objs pop =
      pop.filter (fun p => !(pop.any (fun q => (q.id != p.id) && dominates objs q p))) := by
  unfold front0
  apply List.filter_congr
  intro p _
  apply Bool.eq_iff_iff.mpr
  simp only [beq_iff_eq, Bool.not_eq_true', List.any_eq_false]
  unfold initCount domBeats
  rw [List.length_eq_zero, List.filter_eq_nil_iff]

theorem fastNonDominatedSort_eq (objs : List Objective) (pop : List Solution) :
    fastNonDominatedSort objs pop =
      front0 objs pop ::
        buildFronts objs pop (pop.length + 1) (front0 objs pop) (initCounts objs pop) := rfl

theorem fastNonDominatedSort_flatten_perm (objs : List Objective) {pop : List Solution}
    (hnd : idsNodup pop) : (fastNonDominatedSort objs pop).flatten.Perm pop := by
  have hinit : initCounts objs pop = mkCounts pop
      (fun p => (initCount objs pop p : Int) - (dIn objs p ([] : List Solution) : Int)) := by
    unfold initCounts mkCounts
    apply List.map_congr_left
    intro p _
    simp [dIn]
  have h0nd : (([] : List Solution) ++ front0 objs pop).Nodup := by
    rw [List.nil_append]
    exact (nodup_of_idsNodup hnd).filter _
  have h0sub : (([] : List Solution) ++ front0 objs pop) ⊆ pop := by
    rw [List.nil_append]
    exact fun x hx => List.mem_of_mem_filter hx
  have h0char : ∀ q ∈ pop, (q ∈ ([] : List Solution) ++ front0 objs pop ↔
      dIn objs q [] = initCount objs pop q) := by
    intro q hq
    rw [List.nil_append]
    unfold front0
    rw [List.mem_filter]
    have h0 : dIn objs q ([] : List Solution) = 0 := rfl
    constructor
    · rintro ⟨-, h⟩
      have hz : initCount objs pop q = 0 := by simpa using h
      rw [h0, hz]
    · intro h
      refine ⟨hq, ?_⟩
      rw [h0] at h
      simp [← h]
  have h0inv : ∀ q ∈ ([] : List Solution) ++ front0 objs pop, ∀ r ∈ pop,
      domBeats objs r q = true → r ∈ ([] : List Solution) := by
    intro q hq r hr hbeat
    rw [List.nil_append] at hq
    unfold front0 at hq
    rw [List.mem_filter] at hq
    have hz : initCount objs pop q = 0 := by simpa using hq.2
    have hmem : r ∈ pop.filter (fun s => domBeats objs s q) := List.mem_filter.mpr ⟨hr, hbeat⟩
    have hlen : 0 < (pop.filter (fun s => domBeats objs s q)).length :=
      List.length_pos.mpr (List.ne_nil_of_mem hmem)
    unfold initCount at hz
    omega
  have h0fuel : pop.length ≤ (pop.length + 1) + ([] : List Solution).length := by
    simp
  have hres := buildFronts_spec objs hnd (pop.length + 1) [] (front0 objs pop)
    h0nd h0sub h0char h0inv h0fuel
  rw [fastNonDominatedSort_eq, List.flatten_cons, hinit]
  refine (List.perm_ext_iff_of_nodup ?_ (nodup_of_idsNodup hnd)).mpr ?_
  · have h1 := hres.1
    rw [List.nil_append] at h1
    exact h1
  · intro q
    have h2 := hres.2 q
    rw [List.nil_append] at h2
    exact h2

/-- C1.  For every population of evaluated solutions (with distinct ids, as
the code keys everything by `solution.id`), front 0 of
`fastNonDominatedSort(P)` is exactly the set of members of `P` dominated by no
other member (domination count 0), and the fronts partition `P`: their
concatenation is a permutation of `P` (every member in exactly one front, no
duplicates, no omissions). -/
theorem claim_C1_fastNonDominatedSort (objs : List Objective) (pop : List Solution)
    (hnd : (pop.map Solution.id).Nodup) :
    (fastNonDominatedSort objs pop).head? =
        some (pop.filter (fun p => !(pop.any (fun q => (q.id != p.id) && dominates objs q p)))) ∧
    (fastNonDominatedSort objs pop).flatten.Perm pop := by
  constructor
  · rw [fastNonDominatedSort_eq, List.head?_cons, front0_no_dominators]
  · exact fastNonDominatedSort_flatten_perm objs hnd

def c1Objs : List Objective := [⟨"performance", true⟩, ⟨"complexity", false⟩]

def c1Pop : List Solution :=
  [⟨"s1", [("performance", 10), ("complexity", 1)], 0⟩,
   ⟨"s2", [("performance", 5), ("complexity", 2)], 0⟩,
   ⟨"s3", [("performance", 12), ("complexity", 5)], 0⟩,
   ⟨"s4", [("performance", 1), ("complexity", 9)], 0⟩]

/-- Witness for C1 at a concrete four-member population. -/
theorem claim_C1_witness :
    (c1Pop.map Solution.id).Nodup ∧
    ((fastNonDominatedSort c1Objs c1Pop).head? =
        some (c1Pop.filter (fun p => !(c1Pop.any (fun q => (q.id != p.id) && dominates c1Objs q p)))) ∧
     (fastNonDominatedSort c1Objs c1Pop).flatten.Perm c1Pop) :=
  ⟨by decide, claim_C1_fastNonDominatedSort c1Objs c1Pop (by decide)⟩

/-! ### `MultiObjectiveOptimizer.calculateCrowdingDistance`

`front.sort(...)` is V8's stable sort with a JS comparator; with comparator
`c`, the resulting order is the unique stable order under the total preorder
"`c(a,b) <= 0`" (NaN comparator results are treated as 0), which a stable
insertion sort reproduces.  The in-place mutations (re-ordering the front and
writing `crowdingDistance`) are modelled by returning the new front. -/

def withCd (v : WithTop ℚ) (s : Solution) : Solution := { s with crowdingDistance := v }

/-- Comparator `objective.maximize ? valueB - valueA : valueA - valueB`
turned into its "sorts-before-or-equal" relation. -/
def objSortLe (o : Objective) (a b : Solution) : Bool :=
  if o.maximize then decide (objVal b o.id ≤ objVal a o.id)
  else decide (objVal a o.id ≤ objVal b o.id)

def insertLe (le : Solution → Solution → Bool) (a : Solution) : List Solution → List Solution
  | [] => [a]
  | b :: l => if le a b then a :: b :: l else b :: insertLe le a l

/-- Stable insertion sort. -/
def sortLe (le : Solution → Solution → Bool) (l : List Solution) : List Solution :=
  l.foldr (insertLe le) []

def setHead (f : Solution → Solution) : List Solution → List Solution
  | [] => []
  | x :: xs => f x :: xs

def setLast (f : Solution → Solution) (l : List Solution) : List Solution :=
  (setHead f l.reverse).reverse

/-- One iteration of the per-objective loop: sort by the objective, set the
boundary crowding distances to `Infinity`, read `maxValue`/`minValue` from
the first/last member of the sorted array, and add the normalized neighbour
gap to every interior member. -/
def crowdingPass (o : Objective) (front : List Solution) : List Solution :=
  let sorted := setLast (withCd ⊤) (setHead (withCd ⊤) (sortLe (objSortLe o) front))
  let maxValue := ((sorted.head?).map (fun s => objVal s o.id)).getD 0
  let minValue := ((sorted.getLast?).map (fun s => objVal s o.id)).getD 0
  let range := maxValue - minValue
  if range = 0 then sorted
  else
    sorted.mapIdx (fun i s =>
      if 1 ≤ i ∧ i + 1 < sorted.length then
        { s with crowdingDistance := s.crowdingDistance +
            ((|objVal ((sorted.get? (i + 1)).getD s) o.id -
                objVal ((sorted.get? (i - 1)).getD s) o.id| / range : ℚ) : WithTop ℚ) }
      else s)

/-- `MultiObjectiveOptimizer.calculateCrowdingDistance(front)`. -/
def calculateCrowdingDistance (objs : List Objective) (front : List Solution) :
    List Solution :=
  let front := front.map (withCd 0)
  if front.length ≤ 2 then front.map (withCd ⊤)
  else objs.foldl (fun f o => crowdingPass o f) front

/-! ### `MultiObjectiveOptimizer.selection` -/

/-- `lastFront.sort((a, b) => b.crowdingDistance - a.crowdingDistance)`. -/
def sortCdDesc (l : List Solution) : List Solution :=
  sortLe (fun a b => decide (b.crowdingDistance ≤ a.crowdingDistance)) l

/-- The `while` loop of `selection`, walking `this.paretoFronts`. -/
def selectionGo (objs : List Objective) :
    List (List Solution) → List Solution → Nat → List Solution
  | [], acc, _ => acc
  | F :: rest, acc, N =>
    if acc.length + F.length ≤ N then
      selectionGo objs rest (acc ++ calculateCrowdingDistance objs F) N
    else if acc.length < N then
      acc ++ (sortCdDesc (calculateCrowdingDistance objs F)).take (N - acc.length)
    else acc

/-- `MultiObjectiveOptimizer.selection(population, newPopulationSize)`; the
method reads only `this.paretoFronts` (here passed as `fronts`) and the target
size. -/
def selection (objs : List Objective) (fronts : List (List Solution)) (N : Nat) :
    List Solution :=
  selectionGo objs fronts [] N

theorem length_insertLe (le : Solution → Solution → Bool) (a : Solution) :
    ∀ l : List Solution, (insertLe le a l).length = l.length + 1 := by
  intro l
  induction l with
  | nil => rfl
  | cons b rest ih =>
    unfold insertLe
    by_cases h : le a b <;> simp [h, ih]

theorem length_sortLe (le : Solution → Solution → Bool) (l : List Solution) :
    (sortLe le l).length = l.length := by
  induction l with
  | nil => rfl
  | cons a rest ih =>
    unfold sortLe at ih ⊢
    rw [List.foldr_cons, length_insertLe, ih, List.length_cons]

theorem length_setHead (f : Solution → Solution) (l : List Solution) :
    (setHead f l).length = l.length := by
  cases l <;> rfl

theorem length_setLast (f : Solution → Solution) (l : List Solution) :
    (setLast f l).length = l.length := by
  unfold setLast
  rw [List.length_reverse, length_setHead, List.length_reverse]

theorem length_crowdingPass (o : Objective) (front : List Solution) :
    (crowdingPass o front).length = front.length := by
  unfold crowdingPass
  have hs : (setLast (withCd ⊤) (setHead (withCd ⊤) (sortLe (objSortLe o) front))).length =
      front.length := by
    rw [length_setLast, length_setHead, length_sortLe]
  dsimp only
  split
  · exact hs
  · rw [List.length_mapIdx]
    exact hs

theorem length_foldl_crowdingPass (objs : List Objective) :
    ∀ f : List Solution,
      (objs.foldl (fun f o => crowdingPass o f) f).length = f.length := by
  induction objs with
  | nil => intro f; rfl
  | cons o rest ih =>
    intro f
    rw [List.foldl_cons, ih, length_crowdingPass]

theorem length_crowd (objs : List Objective) (front : List Solution) :
    (calculateCrowdingDistance objs front).length = front.length := by
  unfold calculateCrowdingDistance
  dsimp only
  split
  · rw [List.length_map, List.length_map]
  · rw [length_foldl_crowdingPass, List.length_map]

theorem length_sortCdDesc (l : List Solution) : (sortCdDesc l).length = l.length :=
  length_sortLe _ l

theorem selectionGo_spec (objs : List Objective) :
    ∀ (fronts : List (List Solution)) (acc : List Solution) (N : Nat),
      acc.length ≤ N →
      ((selectionGo objs fronts acc N).length =
          min N (acc.length + (fronts.map List.length).sum) ∧
       ∃ k, k ≤ fronts.length ∧
         acc.length + ((fronts.take k).map List.length).sum ≤ N ∧
         (∀ F, (fronts.drop k).head? = some F →
            N < acc.length + ((fronts.take k).map List.length).sum + F.length) ∧
         selectionGo objs fronts acc N =
           acc ++ ((fronts.take k).map (calculateCrowdingDistance objs)).flatten ++
             (match (fronts.drop k).head? with
              | none => []
              | some F =>
                if acc.length + ((fronts.take k).map List.length).sum < N then
                  (sortCdDesc (calculateCrowdingDistance objs F)).take
                    (N - (acc.length + ((fronts.take k).map List.length).sum))
                else [])) := by
  intro fronts
  induction fronts with
  | nil =>
    intro acc N hacc
    refine ⟨?_, 0, le_rfl, ?_, ?_, ?_⟩
    · simp only [selectionGo, List.map_nil, List.sum_nil, Nat.add_zero]
      omega
    · simpa using hacc
    · intro F hF
      simp at hF
    · simp [selectionGo]
  | cons F rest ih =>
    intro acc N hacc
    by_cases h1 : acc.length + F.length ≤ N
    · have hlen : (acc ++ calculateCrowdingDistance objs F).length ≤ N := by
        rw [List.length_append, length_crowd]
        exact h1
      obtain ⟨hlenIH, k, hk, hsum, hover, heq⟩ := ih (acc ++ calculateCrowdingDistance objs F) N hlen
      rw [List.length_append, length_crowd] at hlenIH hsum hover heq
      refine ⟨?_, k + 1, by simpa using Nat.succ_le_succ hk, ?_, ?_, ?_⟩
      · show (selectionGo objs (F :: rest) acc N).length = _
        simp only [selectionGo, if_pos h1]
        rw [hlenIH, List.map_cons, List.sum_cons]
        omega
      · rw [List.take_succ_cons, List.map_cons, List.sum_cons]
        omega
      · intro G hG
        rw [List.drop_succ_cons] at hG
        have := hover G hG
        rw [List.take_succ_cons, List.map_cons, List.sum_cons]
        omega
      · show selectionGo objs (F :: rest) acc N = _
        simp only [selectionGo, if_pos h1]
        rw [heq, List.take_succ_cons, List.drop_succ_cons]
        simp only [List.map_cons, List.sum_cons, List.flatten_cons]
        have harith : acc.length + (F.length + ((rest.take k).map List.length).sum) =
            acc.length + F.length + ((rest.take k).map List.length).sum := by omega
        rw [harith]
        simp [List.append_assoc]
    · by_cases h2 : acc.length < N
      · refine ⟨?_, 0, Nat.zero_le _, by simpa using hacc, ?_, ?_⟩
        · show (selectionGo objs (F :: rest) acc N).length = _
          simp only [selectionGo, if_neg h1, if_pos h2]
          rw [List.length_append, List.length_take, length_sortCdDesc, length_crowd,
            List.map_cons, List.sum_cons]
          omega
        · intro G hG
          rw [List.drop_zero, List.head?_cons, Option.some_inj] at hG
          subst hG
          simp only [List.take_zero, List.map_nil, List.sum_nil]
          omega
        · show selectionGo objs (F :: rest) acc N = _
          simp only [selectionGo, if_neg h1, if_pos h2]
          simp only [List.take_zero, List.map_nil, List.sum_nil, List.flatten_nil,
            List.drop_zero, List.head?_cons, Nat.add_zero, List.append_nil]
          rw [if_pos h2]
      · refine ⟨?_, 0, Nat.zero_le _, by simpa using hacc, ?_, ?_⟩
        · show (selectionGo objs (F :: rest) acc N).length = _
          simp only [selectionGo, if_neg h1, if_neg h2]
          rw [List.map_cons, List.sum_cons]
          omega
        · intro G hG
          rw [List.drop_zero, List.head?_cons, Option.some_inj] at hG
          subst hG
          simp only [List.take_zero, List.map_nil, List.sum_nil]
          omega
        · show selectionGo objs (F :: rest) acc N = _
          simp only [selectionGo, if_neg h1, if_neg h2]
          simp only [List.take_zero, List.map_nil, List.sum_nil, List.flatten_nil,
            List.drop_zero, List.head?_cons, Nat.add_zero, List.append_nil]
          rw [if_neg h2]
          simp

/-- C2.  For every evaluated, non-dominated-sorted population (distinct ids)
and every target size `N`, `selection` returns exactly `min N |pop|`
candidates; there is a front index `k` such that the result is the
concatenation, in ascending front order, of the whole (crowding-processed)
fronts `0..k-1` — whose total size still fits in `N` — followed, when a front
`k` exists (the first that would overflow `N`), by that front sorted by
descending crowding distance and truncated to exactly the remaining slots. -/
theorem claim_C2_selection (objs : List Objective) (pop : List Solution)
    (hnd : (pop.map Solution.id).Nodup) (N : Nat) :
    (selection objs (fastNonDominatedSort objs pop) N).length = min N pop.length ∧
    ∃ k, k ≤ (fastNonDominatedSort objs pop).length ∧
      ((((fastNonDominatedSort objs pop).take k).map List.length).sum ≤ N) ∧
      (∀ F, (((fastNonDominatedSort objs pop).drop k).head? = some F) →
         N < (((fastNonDominatedSort objs pop).take k).map List.length).sum + F.length) ∧
      selection objs (fastNonDominatedSort objs pop) N =
        (((fastNonDominatedSort objs pop).take k).map (calculateCrowdingDistance objs)).flatten ++
          (match ((fastNonDominatedSort objs pop).drop k).head? with
           | none => []
           | some F =>
             if (((fastNonDominatedSort objs pop).take k).map List.length).sum < N then
               (sortCdDesc (calculateCrowdingDistance objs F)).take
                 (N - (((fastNonDominatedSort objs pop).take k).map List.length).sum)
             else []) := by
  have hperm := fastNonDominatedSort_flatten_perm objs hnd
  have hpoplen : ((fastNonDominatedSort objs pop).map List.length).sum = pop.length := by
    rw [← List.length_flatten]
    exact hperm.length_eq
  obtain ⟨hlen, k, hk, hsum, hover, heq⟩ :=
    selectionGo_spec objs (fastNonDominatedSort objs pop) [] N (by simp)
  simp only [List.length_nil, Nat.zero_add] at hlen hsum hover heq
  refine ⟨?_, k, hk, hsum, hover, ?_⟩
  · rw [← hpoplen]
    exact hlen
  · rw [show selection objs (fastNonDominatedSort objs pop) N =
        selectionGo objs (fastNonDominatedSort objs pop) [] N from rfl, heq, List.nil_append]

/-- Witness for C2 at the concrete four-member population and `N = 3`. -/
theorem claim_C2_witness :
    (c1Pop.map Solution.id).Nodup ∧
    (selection c1Objs (fastNonDominatedSort c1Objs c1Pop) 3).length = min 3 c1Pop.length :=
  ⟨by decide, (claim_C2_selection c1Objs c1Pop (by decide) 3).1⟩

/-! ### C3: crowding-distance at a concrete front with a `minimize` objective

For a `maximize` objective the per-objective sort is descending, so
`front[0]` holds the maximum and `range = max - min > 0`.  For a `minimize`
objective the sort is ascending, yet the code still reads `maxValue` from
`front[0]` (the minimum) and `minValue` from the last element (the maximum),
so `range` is negative and every interior member receives a negative
contribution instead of the normalized distance. -/

def c3Front : List Solution :=
  [⟨"a", [("complexity", 0)], 0⟩, ⟨"b", [("complexity", 1)], 0⟩,
   ⟨"c", [("complexity", 2)], 0⟩]

/-- C3 failing input: three solutions with `complexity` (a minimize objective)
values 0, 1, 2.  Boundary members get `Infinity` as claimed, but the interior
member gets crowding distance `-1`, not the claimed normalized neighbour
distance `(2 - 0) / (2 - 0) = 1`. -/
theorem claim_C3_crowding_negative :
    (calculateCrowdingDistance [⟨"complexity", false⟩] c3Front).map
        (fun s => (s.id, s.crowdingDistance)) =
      [("a", (⊤ : WithTop ℚ)), ("b", ((-1 : ℚ) : WithTop ℚ)), ("c", (⊤ : WithTop ℚ))] ∧
    ((2 : ℚ) - 0) / (2 - 0) = 1 ∧
    ((-1 : ℚ) : WithTop ℚ) ≠ ((1 : ℚ) : WithTop ℚ) := by
  refine ⟨?_, by norm_num, ?_⟩
  · norm_num [calculateCrowdingDistance, crowdingPass, sortLe, insertLe, setHead, setLast,
      withCd, objSortLe, objVal, c3Front, List.mapIdx_cons, List.mapIdx_nil]
  · simp only [ne_eq, WithTop.coe_inj]
    norm_num

/-! ### `WorktreeManager` (heartwood/WorktreeManager.js)

The manager's state is its `worktrees` map (association list in insertion
order) and the `maxWorktrees` bound.  Git calls are modelled as an emitted
list of `GitOp`s (they always succeed in the model); methods that `throw`
return `Except.error`, which carries no new state — the JS error paths
re-throw before mutating the record. -/

inductive GitOp where
  | checkoutLocalBranch (branch : String)
  | checkout (ref : String)
  | worktreeAdd (path branch : String)
  | worktreeRemove (path : String)
  | mergeFromTo (fromBranch toBranch : String)
  | deleteLocalBranch (branch : String)
  | addAll
  | commit (message : String)
deriving DecidableEq, Repr

inductive WStatus
  | active
  | merged
  | mergeFailed
  | cleaned
deriving DecidableEq, Repr

structure Worktree where
  id : String
  evolutionId : String
  path : String
  branchName : String
  baseBranch : String
  god : String
  createdMs : Nat
  status : WStatus
  commits : List String
  mutations : Nat
  fitness : ℚ
deriving DecidableEq, Repr

structure WMState where
  worktrees : List (String × Worktree)
  maxWorktrees : Nat
deriving DecidableEq, Repr

def WMState.lookup (s : WMState) (id : String) : Option Worktree :=
  (s.worktrees.find? (fun e => e.1 == id)).map Prod.snd

def WMState.update (s : WMState) (id : String) (w : Worktree) : WMState :=
  { s with worktrees := s.worktrees.map (fun e => if e.1 == id then (e.1, w) else e) }

def WMState.remove (s : WMState) (id : String) : WMState :=
  { s with worktrees := s.worktrees.filter (fun e => e.1 != id) }

/-- Number of worktrees with status `active` (what the claim calls the
"concurrently active" count). -/
def WMState.activeCount (s : WMState) : Nat :=
  (s.worktrees.filter (fun e => e.2.status == WStatus.active)).length

/-- `WorktreeManager.createEvolutionWorktree(evolutionId, baseBranch, godName)`;
`nowMs` stands for `Date.now()`.  The capacity check is
`this.worktrees.size >= this.maxWorktrees` — the total tracked count, whatever
the statuses. -/
def createEvolutionWorktree (s : WMState) (evolutionId baseBranch god : String)
    (nowMs : Nat) : Except String (WMState × Worktree × List GitOp) :=
  if s.maxWorktrees ≤ s.worktrees.length then
    .error ("Maximum worktrees (" ++ toString s.maxWorktrees ++
      ") reached. Clean up before creating new ones.")
  else
    let worktreeId := "evolution_" ++ evolutionId ++ "_" ++ toString nowMs
    let branchName := "evolution/" ++ evolutionId
    let worktreePath := ".gaia-worktrees/" ++ worktreeId
    let w : Worktree :=
      { id := worktreeId, evolutionId := evolutionId, path := worktreePath,
        branchName := branchName, baseBranch := baseBranch, god := god,
        createdMs := nowMs, status := .active, commits := [], mutations := 0,
        fitness := 0 }
    .ok ({ s with worktrees := s.worktrees ++ [(worktreeId, w)] }, w,
      [.checkoutLocalBranch branchName, .checkout baseBranch,
       .worktreeAdd worktreePath branchName])

/-- The `godBonuses` table of `calculateWorktreeFitness` (default 10). -/
def godBonuses (god : String) : ℚ :=
  if god = "Brahma" then 20
  else if god = "Vishnu" then 15
  else if god = "Shiva" then 25
  else if god = "Saraswati" then 18
  else if god = "Lakshmi" then 12
  else if god = "Kali" then 22
  else if god = "Durga" then 16
  else 10

/-- `WorktreeManager.calculateWorktreeFitness(worktree)` on the happy path:
commits and mutation bonuses plus the god bonus, multiplied by the time-decay
factor `max(0.5, 1 - ageInHours/24)`, plus 2 per file reported by
`getWorktreeStats` (an external filesystem read, here the `fileCount`
argument), clamped to `[0, 100]`. -/
def calculateWorktreeFitness (w : Worktree) (nowMs : Nat) (fileCount : Nat) : ℚ :=
  let fitness : ℚ := 0
  let fitness := fitness + w.commits.length * 10
  let fitness := fitness + w.mutations * 5
  let fitness := fitness + godBonuses w.god
  let ageInHours : ℚ := ((nowMs : ℚ) - (w.createdMs : ℚ)) / (1000 * 60 * 60)
  let timeFactor : ℚ := max (1 / 2) (1 - ageInHours / 24)
  let fitness := fitness * timeFactor
  let fitness := fitness + fileCount * 2
  max 0 (min 100 fitness)

/-- `WorktreeManager.applyMutation(worktreeId, mutation, commitMessage)`:
look up, commit inside the worktree, push the commit record, bump the
mutation counter and recompute fitness. -/
def applyMutation (s : WMState) (worktreeId commitMessage : String)
    (nowMs fileCount : Nat) : Except String (WMState × Worktree × List GitOp) :=
  match s.lookup worktreeId with
  | none => .error ("Worktree " ++ worktreeId ++ " not found")
  | some w =>
    let w := { w with commits := w.commits ++ [commitMessage],
                      mutations := w.mutations + 1 }
    let w := { w with fitness := calculateWorktreeFitness w nowMs fileCount }
    .ok (s.update worktreeId w, w, [.addAll, .commit commitMessage])

/-- `WorktreeManager.mergeEvolution(worktreeId, targetBranch, fitnessThreshold)`. -/
def mergeEvolution (s : WMState) (worktreeId targetBranch : String)
    (fitnessThreshold : ℚ) : Except String (WMState × Bool × List GitOp) :=
  match s.lookup worktreeId with
  | none => .error ("Worktree " ++ worktreeId ++ " not found")
  | some w =>
    if w.fitness < fitnessThreshold then .ok (s, false, [])
    else
      let w' := { w with status := WStatus.merged }
      .ok (s.update worktreeId w', true,
        [.checkout targetBranch, .mergeFromTo w.branchName targetBranch])

/-- `WorktreeManager.cleanupWorktree(worktreeId)`: remove the filesystem
worktree and branch and drop the record from the map. -/
def cleanupWorktree (s : WMState) (worktreeId : String) :
    Except String (WMState × List GitOp) :=
  match s.lookup worktreeId with
  | none => .error ("Worktree " ++ worktreeId ++ " not found")
  | some w =>
    .ok (s.remove worktreeId, [.worktreeRemove w.path, .deleteLocalBranch w.branchName])

/-! ### `MutationBrancher` (heartwood/MutationBrancher.js) -/

inductive MStatus
  | active
  | merged
  | mergeFailed
  | abandoned
  | errored
deriving DecidableEq, Repr

def MStatus.str : MStatus → String
  | .active => "active"
  | .merged => "merged"
  | .mergeFailed => "merge_failed"
  | .abandoned => "abandoned"
  | .errored => "error"

structure Mutation where
  id : String
  mtype : String
  branchName : String
  baseBranch : String
  god : String
  createdMs : Nat
  status : MStatus
  commits : Nat
  changes : Nat
  fitness : ℚ
  realmBalance : ℚ
deriving DecidableEq, Repr

structure MBState where
  mutationBranches : List (String × Mutation)
  activeMutations : List String
  branchHistory : List Mutation
  maxConcurrentMutations : Nat
deriving DecidableEq, Repr

def MBState.lookup (s : MBState) (id : String) : Option Mutation :=
  (s.mutationBranches.find? (fun e => e.1 == id)).map Prod.snd

def MBState.update (s : MBState) (id : String) (m : Mutation) : MBState :=
  { s with mutationBranches :=
      s.mutationBranches.map (fun e => if e.1 == id then (e.1, m) else e) }

/-- `MutationBrancher.createMutationBranch(mutationType, baseBranch, godName)`:
capacity check on `this.activeMutations.size`, then branch creation and
registration.  `nowMs`/`randomHex` stand for `Date.now()` and the
`crypto.randomBytes` suffix of `generateMutationId`; `realmBalance` is the
external `treeCoordinator` reading stored in the metadata. -/
def createMutationBranch (s : MBState) (mutationType baseBranch god : String)
    (nowMs : Nat) (randomHex : String) (realmBalance : ℚ) :
    Except String (MBState × Mutation × List GitOp) :=
  if s.maxConcurrentMutations ≤ s.activeMutations.length then
    .error ("Maximum concurrent mutations (" ++ toString s.maxConcurrentMutations ++
      ") reached")
  else
    let mutationId := mutationType ++ "_" ++ toString nowMs ++ "_" ++ randomHex
    let branchName := "mutation/" ++ mutationType ++ "/" ++ mutationId
    let m : Mutation :=
      { id := mutationId, mtype := mutationType, branchName := branchName,
        baseBranch := baseBranch, god := god, createdMs := nowMs,
        status := .active, commits := 0, changes := 0, fitness := 0,
        realmBalance := realmBalance }
    let s' : MBState :=
      { s with mutationBranches := s.mutationBranches ++ [(mutationId, m)],
               activeMutations := s.activeMutations ++ [mutationId] }
    .ok (s', m, [.checkout baseBranch, .checkoutLocalBranch branchName])

/-- The `godFitnessMap` of `calculateMutationFitness` (default 10). -/
def godFitnessMap (god : String) : ℚ :=
  if god = "odin" then 25
  else if god = "thor" then 20
  else if god = "freyr" then 18
  else if god = "baldr" then 15
  else if god = "heimdall" then 22
  else if god = "bragi" then 12
  else if god = "modi" then 20
  else if god = "vidar" then 16
  else if god = "shiva" then 30
  else if god = "kali" then 25
  else if god = "durga" then 20
  else if god = "yama" then 18
  else if god = "mahakala" then 22
  else if god = "bhairava" then 24
  else if god = "jyestha" then 16
  else if god = "mara" then 14
  else 10

/-- The `typeBonuses` multiplier table of `calculateMutationFitness`. -/
def typeBonuses (t : String) : ℚ :=
  if t = "breaking" then 3 / 2
  else if t = "security" then 7 / 5
  else if t = "performance" then 13 / 10
  else if t = "refactor" then 6 / 5
  else if t = "cleanup" then 11 / 10
  else if t = "docs" then 1
  else if t = "ui" then 11 / 10
  else 1

/-- `MutationBrancher.calculateMutationFitness(mutation)` on the happy path:
commit and change bonuses plus the god bonus, times the mutation-type
multiplier, times the balance factor `1 + |realmBalance|/200`, times the
48-hour time decay floored at 0.7, clamped to `[0, 100]`. -/
def calculateMutationFitness (m : Mutation) (nowMs : Nat) : ℚ :=
  let fitness : ℚ := 0
  let fitness := fitness + m.commits * 15
  let fitness := fitness + m.changes * 5
  let fitness := fitness + godFitnessMap m.god
  let fitness := fitness * typeBonuses m.mtype
  let balanceFactor : ℚ := 1 + |m.realmBalance| / 200
  let fitness := fitness * balanceFactor
  let ageInHours : ℚ := ((nowMs : ℚ) - (m.createdMs : ℚ)) / (1000 * 60 * 60)
  let timeFactor : ℚ := max (7 / 10) (1 - ageInHours / 48)
  let fitness := fitness * timeFactor
  max 0 (min 100 fitness)

/-- `MutationBrancher.applyMutationChanges(mutationId, changes, commitMessage)`:
`NotFound` when unknown, `InvalidState` ("is not active") when the status is
not `active`; otherwise commit on the branch, record the changes and
recompute fitness. -/
def applyMutationChanges (s : MBState) (mutationId : String) (changesLen : Nat)
    (commitMessage : String) (nowMs : Nat) :
    Except String (MBState × Mutation × List GitOp) :=
  match s.lookup mutationId with
  | none => .error ("Mutation " ++ mutationId ++ " not found")
  | some m =>
    if m.status ≠ MStatus.active then
      .error ("Mutation " ++ mutationId ++ " is not active (status: " ++
        m.status.str ++ ")")
    else
      let m := { m with commits := m.commits + 1, changes := m.changes + changesLen }
      let m := { m with fitness := calculateMutationFitness m nowMs }
      .ok (s.update mutationId m, m,
        [.checkout m.branchName, .addAll, .commit commitMessage])

/-- `MutationBrancher.mergeMutation(mutationId, targetBranch, fitnessThreshold)`. -/
def mergeMutation (s : MBState) (mutationId targetBranch : String)
    (fitnessThreshold : ℚ) : Except String (MBState × Bool × List GitOp) :=
  match s.lookup mutationId with
  | none => .error ("Mutation " ++ mutationId ++ " not found")
  | some m =>
    if m.fitness < fitnessThreshold then .ok (s, false, [])
    else
      let m' := { m with status := MStatus.merged }
      let s' : MBState :=
        { (s.update mutationId m') with
          activeMutations := s.activeMutations.filter (fun i => i != mutationId),
          branchHistory := s.branchHistory ++ [m'] }
      .ok (s', true, [.checkout targetBranch, .mergeFromTo m.branchName targetBranch])

/-- `MutationBrancher.abandonMutation(mutationId, reason)`: `NotFound` when
unknown; otherwise — with **no** check of the current status — check out the
base branch, force-delete the mutation branch, mark abandoned, drop from the
active set and append to history. -/
def abandonMutation (s : MBState) (mutationId : String) :
    Except String (MBState × List GitOp) :=
  match s.lookup mutationId with
  | none => .error ("Mutation " ++ mutationId ++ " not found")
  | some m =>
    let m' := { m with status := MStatus.abandoned }
    let s' : MBState :=
      { (s.update mutationId m') with
        activeMutations := s.activeMutations.filter (fun i => i != mutationId),
        branchHistory := s.branchHistory ++ [m'] }
    .ok (s', [.checkout m.baseBranch, .deleteLocalBranch m.branchName])

/-! ### Association-list lemmas for the manager states -/

theorem find?_update_of_isSome {β : Type} (l : List (String × β)) (id : String) (w : β) :
    (l.find? (fun e => e.1 == id)).isSome = true →
    (l.map (fun e => if e.1 == id then (e.1, w) else e)).find? (fun e => e.1 == id) =
      some (id, w) := by
  induction l with
  | nil => intro h; cases h
  | cons e rest ih =>
    intro h
    by_cases he : e.1 = id
    · have hbeq : (e.1 == id) = true := by simpa using he
      rw [List.map_cons, if_pos hbeq]
      rw [List.find?_cons_of_pos _ (by simpa using he)]
      rw [he]
    · have hbeq : (e.1 == id) = false := by simpa using he
      rw [List.map_cons, if_neg (by simp [hbeq])]
      rw [List.find?_cons_of_neg _ (by simp [hbeq])]
      apply ih
      rw [List.find?_cons_of_neg _ (by simp [hbeq])] at h
      exact h

theorem find?_filter_ne_none {β : Type} (l : List (String × β)) (id : String) :
    (l.filter (fun e => e.1 != id)).find? (fun e => e.1 == id) = none := by
  rw [List.find?_eq_none]
  intro e he
  have := (List.mem_filter.mp he).2
  simp at this ⊢
  exact this

theorem WMState.lookup_update {s : WMState} {id : String} {w0 : Worktree}
    (h : s.lookup id = some w0) (w : Worktree) : (s.update id w).lookup id = some w := by
  unfold WMState.lookup at h ⊢
  unfold WMState.update
  have hsome : (s.worktrees.find? (fun e => e.1 == id)).isSome = true := by
    cases hf : s.worktrees.find? (fun e => e.1 == id)
    · rw [hf] at h; cases h
    · rfl
  rw [find?_update_of_isSome s.worktrees id w hsome]
  rfl

theorem WMState.lookup_remove (s : WMState) (id : String) :
    (s.remove id).lookup id = none := by
  unfold WMState.lookup WMState.remove
  rw [find?_filter_ne_none]
  rfl

theorem MBState.lookup_update_mut {s : MBState} {id : String} {m0 : Mutation}
    (h : s.lookup id = some m0) (m : Mutation) : (s.update id m).lookup id = some m := by
  unfold MBState.lookup at h ⊢
  unfold MBState.update
  have hsome : (s.mutationBranches.find? (fun e => e.1 == id)).isSome = true := by
    cases hf : s.mutationBranches.find? (fun e => e.1 == id)
    · rw [hf] at h; cases h
    · rfl
  rw [find?_update_of_isSome s.mutationBranches id m hsome]
  rfl

/-! ### C4: merge below the fitness threshold is a pure no-op -/

/-- C4.  For every tracked worktree — and likewise every tracked mutation —
whose stored fitness is strictly below the threshold, `merge` returns `false`,
issues no git command (no checkout, no merge), and leaves the state — record
status, commits, fitness, active membership — exactly unchanged. -/
theorem claim_C4_merge_below_threshold :
    (∀ (s : WMState) (id target : String) (thr : ℚ) (w : Worktree),
        s.lookup id = some w → w.fitness < thr →
        mergeEvolution s id target thr = .ok (s, false, [])) ∧
    (∀ (s : MBState) (id target : String) (thr : ℚ) (m : Mutation),
        s.lookup id = some m → m.fitness < thr →
        mergeMutation s id target thr = .ok (s, false, [])) := by
  constructor
  · intro s id target thr w hl hf
    unfold mergeEvolution
    rw [hl]
    dsimp only
    rw [if_pos hf]
  · intro s id target thr m hl hf
    unfold mergeMutation
    rw [hl]
    dsimp only
    rw [if_pos hf]

def c4w : Worktree :=
  { id := "w1", evolutionId := "e1", path := ".gaia-worktrees/w1",
    branchName := "evolution/e1", baseBranch := "main", god := "Brahma",
    createdMs := 0, status := .active, commits := [], mutations := 0, fitness := 10 }

def c4s : WMState := ⟨[("w1", c4w)], 10⟩

def c4m : Mutation :=
  { id := "m1", mtype := "optimize", branchName := "mutation/optimize/m1",
    baseBranch := "main", god := "freyr", createdMs := 0, status := .active,
    commits := 0, changes := 0, fitness := 10, realmBalance := 0 }

def c4sm : MBState := ⟨[("m1", c4m)], ["m1"], [], 8⟩

/-- Witness for C4 at concrete low-fitness records and the default thresholds. -/
theorem claim_C4_witness :
    (mergeEvolution c4s "w1" "main" 70 = .ok (c4s, false, []) ∧
     mergeMutation c4sm "m1" "main" 60 = .ok (c4sm, false, [])) :=
  ⟨claim_C4_merge_below_threshold.1 c4s "w1" "main" 70 c4w rfl (by norm_num [c4w]),
   claim_C4_merge_below_threshold.2 c4sm "m1" "main" 60 c4m rfl (by norm_num [c4m])⟩

/-! ### C5: allocation capacity is checked against the tracked count -/

def c5w1 : Worktree :=
  { id := "evolution_e1_1000", evolutionId := "e1",
    path := ".gaia-worktrees/evolution_e1_1000", branchName := "evolution/e1",
    baseBranch := "main", god := "Brahma", createdMs := 1000, status := .active,
    commits := [], mutations := 0, fitness := 0 }

def c5s1 : WMState := ⟨[("evolution_e1_1000", c5w1)], 1⟩

def c5w2 : Worktree := { c5w1 with status := .merged }

def c5s2 : WMState := ⟨[("evolution_e1_1000", c5w2)], 1⟩

/-- C5 counterexample.  A reachable trace (create one worktree under bound 1,
merge it successfully) leaves zero *active* worktrees, yet the next
allocation still fails for capacity: the code checks the total tracked count
`this.worktrees.size`, not the active count, and a merged worktree stays
tracked. -/
theorem claim_C5_counterexample :
    createEvolutionWorktree ⟨[], 1⟩ "e1" "main" "Brahma" 1000 =
      .ok (c5s1, c5w1, [.checkoutLocalBranch "evolution/e1", .checkout "main",
        .worktreeAdd ".gaia-worktrees/evolution_e1_1000" "evolution/e1"]) ∧
    mergeEvolution c5s1 "evolution_e1_1000" "main" 0 =
      .ok (c5s2, true, [.checkout "main", .mergeFromTo "evolution/e1" "main"]) ∧
    c5s2.activeCount = 0 ∧
    c5s2.activeCount < c5s2.maxWorktrees ∧
    createEvolutionWorktree c5s2 "e2" "main" "Brahma" 2000 =
      .error "Maximum worktrees (1) reached. Clean up before creating new ones." := by
  refine ⟨?_, ?_, ?_, ?_, ?_⟩ <;> first | rfl | decide

/-- C5 as amended.  Allocation fails precisely when the number of *tracked*
worktrees (any status) has reached the bound; since `cleanup` removes the
record, the claim's positive scenario holds: at a full table of tracked
worktrees, one `cleanup` of any tracked id makes the next allocation
succeed. -/
theorem claim_C5_amended :
    (∀ (s : WMState) (e b g : String) (n : Nat),
        (∃ msg, createEvolutionWorktree s e b g n = .error msg) ↔
          s.maxWorktrees ≤ s.worktrees.length) ∧
    (∀ (s : WMState) (id : String) (w : Worktree),
        s.worktrees.length = s.maxWorktrees →
        s.lookup id = some w →
        ∀ (e b g : String) (n : Nat),
          ∃ s1 ops r, cleanupWorktree s id = .ok (s1, ops) ∧
            createEvolutionWorktree s1 e b g n = .ok r) := by
  constructor
  · intro s e b g n
    unfold createEvolutionWorktree
    by_cases h : s.maxWorktrees ≤ s.worktrees.length
    · rw [if_pos h]
      exact ⟨fun _ => h, fun _ => ⟨_, rfl⟩⟩
    · rw [if_neg h]
      constructor
      · rintro ⟨msg, heq⟩
        cases heq
      · intro h'
        exact absurd h' h
  · intro s id w hlen hl e b g n
    have hclean : cleanupWorktree s id =
        .ok (s.remove id, [.worktreeRemove w.path, .deleteLocalBranch w.branchName]) := by
      unfold cleanupWorktree
      rw [hl]
    have hfind : s.worktrees.find? (fun e => e.1 == id) = some ((s.worktrees.find?
        (fun e => e.1 == id)).getD ("", w)) := by
      unfold WMState.lookup at hl
      cases hf : s.worktrees.find? (fun e => e.1 == id)
      · rw [hf] at hl; cases hl
      · rfl
    have hlt : (s.remove id).worktrees.length < s.worktrees.length := by
      unfold WMState.remove
      apply List.length_filter_lt_length_iff_exists.mpr
      have hmem := List.mem_of_find?_eq_some hfind
      have hkey := List.find?_some hfind
      exact ⟨_, hmem, by simpa using hkey⟩
    have hnotfull : ¬ ((s.remove id).maxWorktrees ≤ (s.remove id).worktrees.length) := by
      show ¬ (s.maxWorktrees ≤ (s.remove id).worktrees.length)
      omega
    have hcreate : ∃ r, createEvolutionWorktree (s.remove id) e b g n = .ok r := by
      unfold createEvolutionWorktree
      rw [if_neg hnotfull]
      exact ⟨_, rfl⟩
    obtain ⟨r, hr⟩ := hcreate
    exact ⟨s.remove id, _, r, hclean, hr⟩

/-- Witness for C5-amended at a concrete full state. -/
theorem claim_C5_amended_witness :
    ((∃ msg, createEvolutionWorktree c5s2 "e2" "main" "Brahma" 2000 = .error msg) ↔
      c5s2.maxWorktrees ≤ c5s2.worktrees.length) ∧
    (∃ s1 ops r, cleanupWorktree c5s1 "evolution_e1_1000" = .ok (s1, ops) ∧
      createEvolutionWorktree s1 "e2" "main" "Brahma" 2000 = .ok r) :=
  ⟨claim_C5_amended.1 c5s2 "e2" "main" "Brahma" 2000,
   claim_C5_amended.2 c5s1 "evolution_e1_1000" c5w1 rfl rfl "e2" "main" "Brahma" 2000⟩

/-! ### C6: cleanup is not idempotent — the second call throws NotFound -/

def c6w : Worktree :=
  { id := "w1", evolutionId := "e1", path := ".gaia-worktrees/w1",
    branchName := "evolution/e1", baseBranch := "main", god := "Brahma",
    createdMs := 0, status := .active, commits := [], mutations := 0, fitness := 0 }

def c6s : WMState := ⟨[("w1", c6w)], 10⟩

/-- C6 counterexample: after one successful cleanup the id is no longer
tracked, so the second `cleanupWorktree` call *throws* "not found" instead of
being a silent no-op. -/
theorem claim_C6_counterexample :
    cleanupWorktree c6s "w1" =
      .ok (⟨[], 10⟩, [.worktreeRemove ".gaia-worktrees/w1",
        .deleteLocalBranch "evolution/e1"]) ∧
    cleanupWorktree ⟨[], 10⟩ "w1" = .error "Worktree w1 not found" := by
  exact ⟨rfl, rfl⟩

/-- C6 as amended: a second `cleanup` of the same id always fails `NotFound`
(the record was removed by the first call); the error path performs no git
operation and leaves the state unchanged, so the *state* after two calls
equals the state after one — but the second call fails rather than silently
succeeding. -/
theorem claim_C6_amended :
    ∀ (s : WMState) (id : String) (s' : WMState) (ops : List GitOp),
      cleanupWorktree s id = .ok (s', ops) →
      cleanupWorktree s' id = .error ("Worktree " ++ id ++ " not found") := by
  intro s id s' ops h
  unfold cleanupWorktree at h ⊢
  cases hl : s.lookup id with
  | none => rw [hl] at h; cases h
  | some w =>
    rw [hl] at h
    dsimp only at h
    have hs' : s' = s.remove id := by
      cases h
      rfl
    subst hs'
    rw [WMState.lookup_remove]

/-- Witness for C6-amended at the concrete one-worktree state. -/
theorem claim_C6_amended_witness :
    cleanupWorktree (⟨[], 10⟩ : WMState) "w1" = .error ("Worktree " ++ "w1" ++ " not found") :=
  claim_C6_amended c6s "w1" ⟨[], 10⟩
    [.worktreeRemove ".gaia-worktrees/w1", .deleteLocalBranch "evolution/e1"] rfl

/-! ### C7: terminal-status enforcement lives only in `applyMutationChanges` -/

def c7m : Mutation :=
  { id := "optimize_500_ab", mtype := "optimize",
    branchName := "mutation/optimize/optimize_500_ab", baseBranch := "main",
    god := "freyr", createdMs := 500, status := .active, commits := 0,
    changes := 0, fitness := 0, realmBalance := 0 }

def c7s1 : MBState := ⟨[("optimize_500_ab", c7m)], ["optimize_500_ab"], [], 8⟩

def c7m2 : Mutation := { c7m with status := .abandoned }

def c7s2 : MBState := ⟨[("optimize_500_ab", c7m2)], [], [c7m2], 8⟩

def c7s3 : MBState := ⟨[("optimize_500_ab", c7m2)], [], [c7m2, c7m2], 8⟩

/-- C7 counterexample.  A reachable trace: create a mutation, abandon it —
its status is the terminal `abandoned` — and abandon it *again*: the second
`abandonMutation` succeeds (it re-runs branch deletion and re-appends to
history) instead of failing `InvalidState`, because `abandonMutation` never
checks the current status. -/
theorem claim_C7_counterexample :
    createMutationBranch ⟨[], [], [], 8⟩ "optimize" "main" "freyr" 500 "ab" 0 =
      .ok (c7s1, c7m, [.checkout "main",
        .checkoutLocalBranch "mutation/optimize/optimize_500_ab"]) ∧
    abandonMutation c7s1 "optimize_500_ab" =
      .ok (c7s2, [.checkout "main",
        .deleteLocalBranch "mutation/optimize/optimize_500_ab"]) ∧
    c7s2.lookup "optimize_500_ab" = some c7m2 ∧
    c7m2.status = MStatus.abandoned ∧
    abandonMutation c7s2 "optimize_500_ab" =
      .ok (c7s3, [.checkout "main",
        .deleteLocalBranch "mutation/optimize/optimize_500_ab"]) := by
  refine ⟨?_, ?_, ?_, ?_, ?_⟩ <;> rfl

/-- C7 as amended.  After a successful `abandon`, `applyChanges` on the same
id does fail `InvalidState` ("is not active"); but `abandon` on an id in any
terminal status does *not* fail — it succeeds for every tracked id, because
the status guard exists only in `applyMutationChanges`. -/
theorem claim_C7_amended :
    (∀ (s : MBState) (id : String) (s' : MBState) (ops : List GitOp)
        (n : Nat) (msg : String) (now : Nat),
      abandonMutation s id = .ok (s', ops) →
      applyMutationChanges s' id n msg now =
        .error ("Mutation " ++ id ++ " is not active (status: " ++ "abandoned" ++ ")")) ∧
    (∀ (s : MBState) (id : String) (m : Mutation),
      s.lookup id = some m → ∃ r, abandonMutation s id = .ok r) := by
  constructor
  · intro s id s' ops n msg now h
    unfold abandonMutation at h
    cases hl : s.lookup id with
    | none => rw [hl] at h; cases h
    | some m =>
      rw [hl] at h
      dsimp only at h
      have hs' : s' = { (s.update id { m with status := MStatus.abandoned }) with
          activeMutations := s.activeMutations.filter (fun i => i != id),
          branchHistory := s.branchHistory ++ [{ m with status := MStatus.abandoned }] } := by
        cases h
        rfl
      subst hs'
      have hlup : (({ (s.update id { m with status := MStatus.abandoned }) with
          activeMutations := s.activeMutations.filter (fun i => i != id),
          branchHistory := s.branchHistory ++ [{ m with status := MStatus.abandoned }] } :
            MBState).lookup id) = some { m with status := MStatus.abandoned } := by
        have := MBState.lookup_update_mut hl { m with status := MStatus.abandoned }
        unfold MBState.lookup MBState.update at this ⊢
        exact this
      unfold applyMutationChanges
      rw [hlup]
      dsimp only
      rw [if_pos (by simp)]
      rfl
  · intro s id m hl
    unfold abandonMutation
    rw [hl]
    exact ⟨_, rfl⟩

/-- Witness for C7-amended at the concrete abandoned-mutation state. -/
theorem claim_C7_amended_witness :
    applyMutationChanges c7s2 "optimize_500_ab" 5 "more" 600 =
      .error ("Mutation " ++ "optimize_500_ab" ++ " is not active (status: " ++ "abandoned" ++ ")") ∧
    (∃ r, abandonMutation c7s2 "optimize_500_ab" = .ok r) :=
  ⟨claim_C7_amended.1 c7s1 "optimize_500_ab" c7s2
      [.checkout "main", .deleteLocalBranch "mutation/optimize/optimize_500_ab"]
      5 "more" 600 rfl,
   claim_C7_amended.2 c7s2 "optimize_500_ab" c7m2 rfl⟩

/-! ### C8: the worktree fitness formula -/

/-- `timeDecay` as both the claim and the code describe it: linear decay from
1.0 to the 0.5 floor over a 24-hour window. -/
def timeDecay (ageInHours : ℚ) : ℚ := max (1 / 2) (1 - ageInHours / 24)

def c8w : Worktree :=
  { id := "w1", evolutionId := "e1", path := ".gaia-worktrees/w1",
    branchName := "evolution/e1", baseBranch := "main", god := "Brahma",
    createdMs := 0, status := .active, commits := ["c1"], mutations := 0,
    fitness := 0 }

/-- C8 counterexample.  The recomputed fitness is *not* of the claimed shape
`clamp(0, 100, base(commits, changes) * timeDecay(age) + policyBonus(tag))`
for any choice of `base` and bonus table: two states identical in commits,
changes, age and tag but with different file counts (an input of
`getWorktreeStats`, which the formula omits) produce fitness 30 and 32 —
but the claimed formula forces them to be equal. -/
theorem claim_C8_counterexample :
    calculateWorktreeFitness c8w 0 0 = 30 ∧
    calculateWorktreeFitness c8w 0 1 = 32 ∧
    ¬ ∃ (base : Nat → Nat → ℚ) (bonus : String → ℚ),
        ∀ (w : Worktree) (nowMs fileCount : Nat),
          calculateWorktreeFitness w nowMs fileCount =
            max 0 (min 100 (base w.commits.length w.mutations *
              timeDecay (((nowMs : ℚ) - (w.createdMs : ℚ)) / (1000 * 60 * 60)) +
              bonus w.god)) := by
  have e1 : calculateWorktreeFitness c8w 0 0 = 30 := by
    norm_num [calculateWorktreeFitness, godBonuses, c8w]
  have e2 : calculateWorktreeFitness c8w 0 1 = 32 := by
    norm_num [calculateWorktreeFitness, godBonuses, c8w]
  refine ⟨e1, e2, ?_⟩
  rintro ⟨base, bonus, h⟩
  have h1 := h c8w 0 0
  have h2 := h c8w 0 1
  rw [e1] at h1
  rw [e2] at h2
  rw [← h1] at h2
  norm_num at h2

/-- C8 as amended.  After every successful `applyMutation`, the stored and
returned fitness equals
`clamp(0, 100, (10·commits + 5·changes + policyBonus(tag)) · timeDecay(age) + 2·fileCount)`:
the policy bonus sits *inside* the decayed term, and a post-decay bonus of 2
per file (from `getWorktreeStats`) is added before clamping. -/
theorem claim_C8_amended :
    ∀ (s : WMState) (id msg : String) (now files : Nat) (s' : WMState)
      (w : Worktree) (ops : List GitOp),
      applyMutation s id msg now files = .ok (s', w, ops) →
      (s'.lookup id = some w ∧
       w.fitness = max 0 (min 100 ((10 * w.commits.length + 5 * w.mutations +
         godBonuses w.god) *
           timeDecay (((now : ℚ) - (w.createdMs : ℚ)) / (1000 * 60 * 60)) +
         2 * files))) := by
  intro s id msg now files s' w ops h
  unfold applyMutation at h
  cases hl : s.lookup id with
  | none => rw [hl] at h; cases h
  | some w0 =>
    rw [hl] at h
    dsimp only at h
    cases h
    refine ⟨WMState.lookup_update hl _, ?_⟩
    unfold calculateWorktreeFitness timeDecay
    dsimp only
    ring_nf

def c8w' : Worktree :=
  { c4w with commits := ["msg"], mutations := 1, fitness := 39 }

/-- Witness for C8-amended: one `applyMutation` on the concrete state at age
0 with 2 files yields fitness `clamp(0,100, (10 + 5 + 20)·1 + 4) = 39`. -/
theorem claim_C8_amended_witness :
    (c4s.update "w1" c8w').lookup "w1" = some c8w' ∧
    c8w'.fitness = max 0 (min 100 ((10 * c8w'.commits.length + 5 * c8w'.mutations +
      godBonuses c8w'.god) *
        timeDecay ((((0 : Nat) : ℚ) - ((c8w'.createdMs : ℚ))) / (1000 * 60 * 60)) +
      2 * (2 : Nat))) :=
  claim_C8_amended c4s "w1" "msg" 0 2 (c4s.update "w1" c8w') c8w'
    [.addAll, .commit "msg"]
    (by norm_num [applyMutation, calculateWorktreeFitness, godBonuses, c4s, c4w, c8w',
      WMState.lookup, WMState.update])

/-! ### C9: `MultiObjectiveOptimizer.crossover`

Randomness (`Math.random()`) is modelled as explicit input streams: one fresh
weight per property key for each child's blend; the id suffixes built from
`Date.now()` and the base-36 random string are passed in as `suffix1`,
`suffix2`.  The JS method has *no* crossover-rate check: every call builds
two fresh offspring records. -/

structure MOOParent where
  id : String
  ptype : String
  properties : List (String × ℚ)
deriving DecidableEq, Repr

structure MOOChild where
  id : String
  ctype : String
  parents : List String
  generation : Nat
  properties : List (String × ℚ)
deriving DecidableEq, Repr

/-- `parent.properties?.[key] || 0`. -/
def propVal (p : MOOParent) (k : String) : ℚ :=
  ((p.properties.find? (fun e => e.1 == k)).map Prod.snd).getD 0

/-- JS `Set` union of both parents' keys, in insertion order. -/
def addKey (acc : List String) (k : String) : List String :=
  if k ∈ acc then acc else acc ++ [k]

def allKeys (p1 p2 : MOOParent) : List String :=
  (p1.properties.map Prod.fst ++ p2.properties.map Prod.fst).foldl addKey []

/-- `MultiObjectiveOptimizer.blendProperties(parent1, parent2)`: one fresh
random weight per key, `value1 * weight + value2 * (1 - weight)`. -/
def blendProperties (rnd : Nat → ℚ) (p1 p2 : MOOParent) : List (String × ℚ) :=
  (allKeys p1 p2).mapIdx (fun i k =>
    (k, propVal p1 k * rnd i + propVal p2 k * (1 - rnd i)))

/-- `MultiObjectiveOptimizer.crossover(parent1, parent2)`: unconditionally
builds two offspring records blending the parents' numeric property maps. -/
def crossoverMOO (rnd1 rnd2 : Nat → ℚ) (suffix1 suffix2 : String)
    (generations : Nat) (p1 p2 : MOOParent) : MOOChild × MOOChild :=
  ({ id := "child_" ++ suffix1, ctype := "offspring", parents := [p1.id, p2.id],
     generation := generations + 1, properties := blendProperties rnd1 p1 p2 },
   { id := "child_" ++ suffix2, ctype := "offspring", parents := [p1.id, p2.id],
     generation := generations + 1, properties := blendProperties rnd2 p2 p1 })

def c9p1 : MOOParent := ⟨"p1", "solution", [("x", 0)]⟩

def c9p2 : MOOParent := ⟨"p2", "solution", [("x", 1)]⟩

/-- C9 counterexample.  There is *no* random draw on which `crossover` skips
and returns unmodified copies of the parents: the first returned child always
carries a fresh `child_*` id (never the parent's id), so the claimed
probability-0.3 skip branch does not exist in this method. -/
theorem claim_C9_counterexample :
    ¬ ∃ (rnd1 rnd2 : Nat → ℚ) (sfx1 sfx2 : String) (gen : Nat),
        ((crossoverMOO rnd1 rnd2 sfx1 sfx2 gen c9p1 c9p2).1.id = c9p1.id ∧
         (crossoverMOO rnd1 rnd2 sfx1 sfx2 gen c9p1 c9p2).1.properties = c9p1.properties) := by
  rintro ⟨rnd1, rnd2, sfx1, sfx2, gen, hid, -⟩
  have hid' : ("child_" ++ sfx1) = "p1" := hid
  have hlen := congrArg String.length hid'
  rw [String.length_append] at hlen
  have h6 : ("child_" : String).length = 6 := rfl
  have h2 : ("p1" : String).length = 2 := rfl
  omega

theorem map_fst_mapIdx_pair (g : Nat → String → ℚ) :
    ∀ l : List String, ((l.mapIdx (fun i k => (k, g i k))).map Prod.fst) = l := by
  intro l
  induction l generalizing g with
  | nil => rfl
  | cons a rest ih =>
    rw [List.mapIdx_cons, List.map_cons]
    exact congrArg (a :: ·) (ih (fun i => g (i + 1)))

theorem blendProperties_get? (rnd : Nat → ℚ) (p1 p2 : MOOParent) (i : Nat) (k : String)
    (hk : (allKeys p1 p2).get? i = some k) :
    (blendProperties rnd p1 p2).get? i =
      some (k, propVal p1 k * rnd i + propVal p2 k * (1 - rnd i)) := by
  obtain ⟨hlt, hget⟩ := List.get?_eq_some.mp hk
  unfold blendProperties
  rw [List.get?_eq_get (by rw [List.length_mapIdx]; exact hlt)]
  rw [List.get_mapIdx _ _ i hlt, hget]

/-- C9 as amended.  `crossover` in the multi-objective optimizer is
unconditional: on *every* draw it returns two fresh `offspring` records
(never unmodified parent copies) whose property maps blend the parents per
key with that key's fresh random weight — each child's key list is the union
of the parents' keys (its own parent order first), and its value at key `k`
of index `i` is `v₁·w + v₂·(1-w)` for that key's draw `w`.  (The
probabilistic skip-and-copy behaviour with rate 0.7 lives in
`NeuralEvolutionEngine.crossover`, not here.) -/
theorem claim_C9_amended :
    ∀ (rnd1 rnd2 : Nat → ℚ) (sfx1 sfx2 : String) (gen : Nat) (p1 p2 : MOOParent),
      ((crossoverMOO rnd1 rnd2 sfx1 sfx2 gen p1 p2).1.ctype = "offspring" ∧
       (crossoverMOO rnd1 rnd2 sfx1 sfx2 gen p1 p2).2.ctype = "offspring" ∧
       (crossoverMOO rnd1 rnd2 sfx1 sfx2 gen p1 p2).1.parents = [p1.id, p2.id] ∧
       (crossoverMOO rnd1 rnd2 sfx1 sfx2 gen p1 p2).2.parents = [p1.id, p2.id] ∧
       (crossoverMOO rnd1 rnd2 sfx1 sfx2 gen p1 p2).1.properties.map Prod.fst =
         allKeys p1 p2 ∧
       (crossoverMOO rnd1 rnd2 sfx1 sfx2 gen p1 p2).2.properties.map Prod.fst =
         allKeys p2 p1 ∧
       (∀ i k, (allKeys p1 p2).get? i = some k →
         (crossoverMOO rnd1 rnd2 sfx1 sfx2 gen p1 p2).1.properties.get? i =
           some (k, propVal p1 k * rnd1 i + propVal p2 k * (1 - rnd1 i))) ∧
       (∀ i k, (allKeys p2 p1).get? i = some k →
         (crossoverMOO rnd1 rnd2 sfx1 sfx2 gen p1 p2).2.properties.get? i =
           some (k, propVal p2 k * rnd2 i + propVal p1 k * (1 - rnd2 i)))) := by
  intro rnd1 rnd2 sfx1 sfx2 gen p1 p2
  refine ⟨rfl, rfl, rfl, rfl, ?_, ?_, ?_, ?_⟩
  · exact map_fst_mapIdx_pair _ (allKeys p1 p2)
  · exact map_fst_mapIdx_pair _ (allKeys p2 p1)
  · exact fun i k hk => blendProperties_get? rnd1 p1 p2 i k hk
  · exact fun i k hk => blendProperties_get? rnd2 p2 p1 i k hk

/-- Witness for C9-amended at concrete parents and draws. -/
theorem claim_C9_amended_witness :
    ((crossoverMOO (fun _ => 1/4) (fun _ => 1/3) "s1" "s2" 0 c9p1 c9p2).1.ctype =
        "offspring" ∧
     (crossoverMOO (fun _ => 1/4) (fun _ => 1/3) "s1" "s2" 0 c9p1 c9p2).2.ctype =
        "offspring" ∧
     (crossoverMOO (fun _ => 1/4) (fun _ => 1/3) "s1" "s2" 0 c9p1 c9p2).1.parents =
        [c9p1.id, c9p2.id] ∧
     (crossoverMOO (fun _ => 1/4) (fun _ => 1/3) "s1" "s2" 0 c9p1 c9p2).2.parents =
        [c9p1.id, c9p2.id] ∧
     (crossoverMOO (fun _ => 1/4) (fun _ => 1/3) "s1" "s2" 0 c9p1 c9p2).1.properties.map
        Prod.fst = allKeys c9p1 c9p2 ∧
     (crossoverMOO (fun _ => 1/4) (fun _ => 1/3) "s1" "s2" 0 c9p1 c9p2).2.properties.map
        Prod.fst = allKeys c9p2 c9p1 ∧
     (∀ i k, (allKeys c9p1 c9p2).get? i = some k →
       (crossoverMOO (fun _ => 1/4) (fun _ => 1/3) "s1" "s2" 0 c9p1 c9p2).1.properties.get? i =
         some (k, propVal c9p1 k * (1/4) + propVal c9p2 k * (1 - 1/4))) ∧
     (∀ i k, (allKeys c9p2 c9p1).get? i = some k →
       (crossoverMOO (fun _ => 1/4) (fun _ => 1/3) "s1" "s2" 0 c9p1 c9p2).2.properties.get? i =
         some (k, propVal c9p2 k * (1/3) + propVal c9p1 k * (1 - 1/3)))) :=
  claim_C9_amended (fun _ => 1/4) (fun _ => 1/3) "s1" "s2" 0 c9p1 c9p2

/-! ### C10: `MultiObjectiveOptimizer.evaluateSolution`

A JS number returned by an evaluator can be non-finite; `JsNum` models the
possible values.  An evaluator that throws (a rejected promise) is an
`Except.error`.  The `.catch` of the code stores `0` for a rejection; an `ok`
value is stored *as is*, with no finiteness check.  The per-objective
promises write disjoint keys of `objectiveValues`, so the map contents do not
depend on completion order and the pass is modelled as a map over the
registered objectives. -/

inductive JsNum where
  | num (q : ℚ)
  | nan
  | inf
  | negInf
deriving DecidableEq, Repr

structure ObjectiveE where
  id : String
  maximize : Bool
  evalFn : String → String → Except String JsNum

/-- `MultiObjectiveOptimizer.evaluateSolution(solution)`, returning the
`objectiveValues` map for solution id `sol`: one entry per registered
objective; a rejection contributes 0, an `ok` value is stored unchanged. -/
def evaluateSolution (objs : List ObjectiveE) (sol : String) : List (String × JsNum) :=
  objs.map (fun o =>
    (o.id, match o.evalFn sol o.id with
           | .error _ => JsNum.num 0
           | .ok v => v))

def c10bad : ObjectiveE := ⟨"performance", true, fun _ _ => .ok .inf⟩

def c10throw : ObjectiveE := ⟨"maintainability", true, fun _ _ => .error "boom"⟩

def c10good : ObjectiveE := ⟨"complexity", false, fun _ _ => .ok (.num 5)⟩

/-- C10 counterexample.  An evaluator that *returns* a non-finite value
(`Infinity`) does not contribute 0: the value is stored unchanged — only
thrown/rejected evaluations are mapped to 0. -/
theorem claim_C10_counterexample :
    evaluateSolution [c10bad, c10throw, c10good] "s1" =
      [("performance", JsNum.inf), ("maintainability", JsNum.num 0),
       ("complexity", JsNum.num 5)] ∧
    JsNum.inf ≠ JsNum.num 0 := by
  exact ⟨rfl, by decide⟩

/-- C10 as amended.  An evaluator that throws contributes exactly 0, the
failure is non-fatal and every other registered objective still gets its
value; but a *returned* non-finite value is stored unchanged (the code has no
finiteness check).  The result always covers exactly the registered
objectives, in registration order. -/
theorem claim_C10_amended :
    ∀ (objs : List ObjectiveE) (sol : String),
      ((evaluateSolution objs sol).map Prod.fst = objs.map ObjectiveE.id ∧
       (∀ o ∈ objs, ∀ e, o.evalFn sol o.id = .error e →
          (o.id, JsNum.num 0) ∈ evaluateSolution objs sol) ∧
       (∀ o ∈ objs, ∀ v, o.evalFn sol o.id = .ok v →
          (o.id, v) ∈ evaluateSolution objs sol)) := by
  intro objs sol
  refine ⟨?_, ?_, ?_⟩
  · unfold evaluateSolution
    rw [List.map_map]
    rfl
  · intro o ho e he
    unfold evaluateSolution
    refine List.mem_map.mpr ⟨o, ho, ?_⟩
    rw [he]
  · intro o ho v hv
    unfold evaluateSolution
    refine List.mem_map.mpr ⟨o, ho, ?_⟩
    rw [hv]

/-- Witness for C10-amended at the three concrete objectives. -/
theorem claim_C10_amended_witness :
    ((evaluateSolution [c10bad, c10throw, c10good] "s1").map Prod.fst =
        [c10bad, c10throw, c10good].map ObjectiveE.id ∧
     (∀ o ∈ [c10bad, c10throw, c10good], ∀ e, o.evalFn "s1" o.id = .error e →
        (o.id, JsNum.num 0) ∈ evaluateSolution [c10bad, c10throw, c10good] "s1") ∧
     (∀ o ∈ [c10bad, c10throw, c10good], ∀ v, o.evalFn "s1" o.id = .ok v →
        (o.id, v) ∈ evaluateSolution [c10bad, c10throw, c10good] "s1")) :=
  claim_C10_amended [c10bad, c10throw, c10good] "s1"

end Gaia
